import Mathlib

set_option maxRecDepth 10000

/-!
Verification of the discord_stable_diffusion repository: a shallow embedding
of the parameter-validation, ack-message codec, admission, configuration and
scheduling code, together with theorems settling the specification claims.

Python numbers are modelled exactly: ints as `Int`/`Nat`, floats as `ℚ`
(the float values arising in this code are short decimals, on which Python
float arithmetic agrees with exact rational arithmetic), `int(x)` truncation
toward zero as `pyIntOfRat`.
-/

namespace SD

/-- Decimal digit character for a value below ten, as produced by Python str(). -/
def digitChar : Nat → Char
  | 0 => '0' | 1 => '1' | 2 => '2' | 3 => '3' | 4 => '4'
  | 5 => '5' | 6 => '6' | 7 => '7' | 8 => '8' | _ => '9'

/-- Decimal digits of a natural number, most significant first (fuelled
structural recursion; `natDigits` supplies sufficient fuel). -/
def natDigitsAux : Nat → Nat → List Char
  | 0, _ => []
  | fuel + 1, n => if n < 10 then [digitChar n]
                   else natDigitsAux fuel (n / 10) ++ [digitChar (n % 10)]

/-- Decimal digits of a natural number, as rendered by Python str(). -/
def natDigits (n : Nat) : List Char := natDigitsAux (n + 1) n

/-- Python str() of a natural number. -/
def natToStr (n : Nat) : String := ⟨natDigits n⟩

/-- Python str() of an int (decimal, with a leading minus sign if negative). -/
def intDigits (n : Int) : List Char :=
  if n < 0 then '-' :: natDigits (-n).toNat else natDigits n.toNat

/-- Numeric value of a decimal digit character (Python int() semantics on a
single digit: its code point minus 48). -/
def digitVal (c : Char) : Nat := c.toNat - 48

/-- Value of a list of decimal digit characters, as computed by Python int()
on a string of digits. -/
def digitsVal (cs : List Char) : Nat := cs.foldl (fun a c => 10 * a + digitVal c) 0

/-- Python int() truncation toward zero of a rational, the meaning of
`int(x)` on a float. -/
def pyIntOfRat (q : ℚ) : Int := q.num.tdiv q.den

/-! ### Constants from src/modules/consts.py -/

/-- maximum total pixels that fit when latent upscaling (consts.py). -/
def MAX_PIXEL_COUNT_LATENT : Int := 1536 * 1536

/-- max total pixels that fit when upscaling with R-ESRGAN (consts.py). -/
def MAX_PIXEL_COUNT_ESRGAN : Int := 1024 * 2000

/-- DEFAULT_IN_FLIGHT_GEN_CAP from consts.py. -/
def DEFAULT_IN_FLIGHT_GEN_CAP : Int := 1

/-- SOFT_DEADLINE from consts.py. -/
def SOFT_DEADLINE : ℚ := 30

/-! ### max_batch_size (src/modules/utils.py, lines 75-96) -/

/-- Embedding of utils.max_batch_size: scale defaults to 1, upscaler defaults
to "Latent"; the pixel budget is divided by the (upscaled) pixel count with
Python float division modelled as exact rational division, truncated by
int() and capped at 4. -/
def max_batch_size (width height : Int) (scale : Option ℚ) (upscaler : Option String) : Int :=
  min (pyIntOfRat
    ((if upscaler.getD "Latent" = "Latent" then (MAX_PIXEL_COUNT_LATENT : ℚ)
      else (MAX_PIXEL_COUNT_ESRGAN : ℚ)) /
     ((width : ℚ) * (height : ℚ) * scale.getD 1 * scale.getD 1))) 4

/-! ### seed replacement at admission
(src/modules/cogs/sd_generation_commands.py, lines 206-207) -/

/-- The argument of random.randrange in the admission path. -/
def randrangeArg : Nat := 4294967294

/-- Embedding of the admission-time seed replacement: the value
`int(random.randrange(4294967294))` is modelled by its draw `r`, which
random.randrange produces in the half-open range [0, 4294967294). -/
def seedAfterAdmission (seed : Int) (r : Nat) : Int :=
  if seed = -1 then (r : Int) else seed

/-! ### DiscordConfig.in_flight_gen_cap (src/modules/discord_config.py) -/

/-- First-match association-list lookup, the meaning of a Python dict
indexed by string keys. -/
def alookup {α : Type} (l : List (String × α)) (k : String) : Option α :=
  (l.find? (fun p => p.1 = k)).map (fun p => p.2)

/-- The parts of the bot configuration that in_flight_gen_cap reads.
`user_in_flight_caps` is `none` when the top-level key is missing; each
surface map entry carries the optional "in_flight_cap" field of that
surface's dict. -/
structure DiscordConfig where
  user_in_flight_caps : Option (List (String × Int))
  channels : List (String × Option Int)
  categories : List (String × Option Int)
  guilds : List (String × Option Int)

/-- The first step of in_flight_gen_cap: the user-specific cap, looked up
under str(user) in the top-level "user_in_flight_caps" dict. -/
def capAfterUser (c : DiscordConfig) (user : Int) : Option Int :=
  c.user_in_flight_caps.bind (fun m => alookup m (⟨intDigits user⟩ : String))

/-- One fallback step of in_flight_gen_cap: when no cap was found yet and
the surface id was supplied, read the "in_flight_cap" field of that
surface's dict. -/
def capFallback (surfaces : List (String × Option Int)) (cap : Option Int)
    (sid : Option Int) : Option Int :=
  match cap, sid with
  | none, some i => (alookup surfaces (⟨intDigits i⟩ : String)).bind id
  | x, _ => x

/-- The last fallback step of in_flight_gen_cap: the "default" entry of the
"user_in_flight_caps" dict. -/
def capFallbackDefault (c : DiscordConfig) (cap : Option Int) : Option Int :=
  match cap with
  | none => c.user_in_flight_caps.bind (fun m => alookup m "default")
  | x => x

/-- Embedding of DiscordConfig.in_flight_gen_cap: user-specific cap, then
channel, category, guild "in_flight_cap" entries, then the "default" entry
of user_in_flight_caps, then the hardcoded constant. -/
def in_flight_gen_cap (c : DiscordConfig) (user : Int)
    (channel_id category_id guild_id : Option Int) : Int :=
  (capFallbackDefault c
    (capFallback c.guilds
      (capFallback c.categories
        (capFallback c.channels (capAfterUser c user) channel_id)
        category_id)
      guild_id)).getD DEFAULT_IN_FLIGHT_GEN_CAP

/-- The cap-resolution chain as the specification words it: a user-specific
cap if present, else the channel's cap, else the category's cap, else the
guild's cap, else the configured default, else the hardcoded default. -/
def capResolutionSpec (c : DiscordConfig) (user : Int)
    (channel_id category_id guild_id : Option Int) : Int :=
  ((c.user_in_flight_caps.bind (fun m => alookup m (⟨intDigits user⟩ : String))) <|>
   (channel_id.bind fun cid => (alookup c.channels (⟨intDigits cid⟩ : String)).bind id) <|>
   (category_id.bind fun cid => (alookup c.categories (⟨intDigits cid⟩ : String)).bind id) <|>
   (guild_id.bind fun gid => (alookup c.guilds (⟨intDigits gid⟩ : String)).bind id) <|>
   (c.user_in_flight_caps.bind (fun m => alookup m "default"))).getD
    DEFAULT_IN_FLIGHT_GEN_CAP

/-! ### base64 image decoding in the worker
(src/modules/sd_web_client.py, line 254) -/

/-- The base64 alphabet in index order. -/
def B64_ALPHABET : List Char :=
  ['A','B','C','D','E','F','G','H','I','J','K','L','M','N','O','P','Q','R','S','T',
   'U','V','W','X','Y','Z','a','b','c','d','e','f','g','h','i','j','k','l','m','n',
   'o','p','q','r','s','t','u','v','w','x','y','z','0','1','2','3','4','5','6','7',
   '8','9','+','/']

/-- Index of a character in a list, counting from `i`. -/
def idxFrom : List Char → Char → Nat → Option Nat
  | [], _, _ => none
  | a :: as, c, i => if a = c then some i else idxFrom as c (i + 1)

/-- Index of a character in the base64 alphabet. -/
def b64Index (c : Char) : Option Nat := idxFrom B64_ALPHABET c 0

/-- Decode base64 symbol groups of four into bytes; '=' padding is accepted in
the final group. A symbol count that is not a multiple of four is an error
(none), as in binascii. -/
def b64Groups : List Char → Option (List Nat)
  | [] => some []
  | a :: b :: c :: d :: rest =>
    match b64Index a, b64Index b with
    | some x, some y =>
      if c = '=' ∧ d = '=' ∧ rest = [] then
        some [x * 4 + y / 16]
      else
        match b64Index c with
        | some z =>
          if d = '=' ∧ rest = [] then
            some [x * 4 + y / 16, (y % 16) * 16 + z / 4]
          else
            match b64Index d with
            | some w => (b64Groups rest).map
                (fun bs => (x * 4 + y / 16) :: ((y % 16) * 16 + z / 4) :: ((z % 4) * 64 + w) :: bs)
            | none => none
        | none => none
    | _, _ => none
  | _ => none

/-- Embedding of base64.b64decode as the worker uses it: characters outside
the alphabet (other than '=') are discarded, then groups of four symbols are
decoded; a leftover partial group is an error. -/
def b64decode (s : String) : Option (List Nat) :=
  b64Groups (s.data.filter (fun c => (b64Index c).isSome || c = '='))

/-- Embedding of the worker's per-image decode expression
`base64.b64decode(i.split(",", 1)[0])`: the part of the string before the
first comma (the whole string when there is no comma) is base64-decoded. -/
def workerImageDecode (s : String) : Option (List Nat) :=
  b64decode ⟨s.data.takeWhile (fun c => c ≠ ',')⟩

/-! ### Parameter dictionaries and validate_params
(src/modules/utils.py lines 276-296, src/modules/consts.py) -/

/-- A Python value as it occurs in a parameter dict: a number (Python int and
float collapse to an exact rational, matching Python numeric equality), a
string, a bool, or None. -/
inductive PVal where
  | num (q : ℚ)
  | str (s : String)
  | bool (b : Bool)
  | pnone
deriving DecidableEq

/-- The keys a parameter dict can carry: the 21 ALL_CONFIG parameter names
followed by the four non-config keys used by the codec and admission
(prompt, negative_prompt, batch_size, image_url). -/
inductive ParamKey where
  | pfx | negPfx
  | steps | cfg | sampler | seed | width | height | vae | model | refiner
  | refinerSwitchAt
  | scale | denoisingStr | highresSteps | upscaler
  | autosize | autosizeMaxsize | denoisingStrImg2img | resizeMode | resizeScale
  | prompt | negPrompt | batchSize | imageUrl
deriving DecidableEq

/-- A parameter dict: Python dict equality ignores insertion order, so a dict
over the fixed key space is a function to optional values; `none` means the
key is absent, `some .pnone` that it is present and maps to None. -/
def Params : Type := ParamKey → Option PVal

/-- The environment-dependent part of the configuration: the checkpoint and
vae files that update_config discovers on disk and appends to the declared
supported_values lists (statically empty for model, Automatic/None for vae,
None for refiner). -/
structure Env where
  modelFiles : List String
  vaeFiles : List String

/-- BASE_PARAMS of the model parameter as extended by update_config. -/
def supportedModels (e : Env) : List String := e.modelFiles

/-- Supported vaes as extended by update_config. -/
def supportedVaes (e : Env) : List String := "Automatic" :: "None" :: e.vaeFiles

/-- Supported refiners as extended by update_config (model files). -/
def supportedRefiners (e : Env) : List String := "None" :: e.modelFiles

/-- The sampler allow-list from consts.py. -/
def supportedSamplers : List String :=
  ["DPM++ 2M", "DPM++ SDE", "DPM++ 2M SDE", "DPM++ 2M SDE Heun", "DPM++ 2S a",
   "DPM++ 3M SDE", "Euler a", "Euler", "LMS", "Heun", "DPM2", "DPM2 a", "DPM fast",
   "DPM adaptive", "Restart", "DDIM", "PLMS", "LCM"]

/-- The upscaler allow-list from consts.py. -/
def supportedUpscalers : List String := ["Latent", "R-ESRGAN 4x+", "R-ESRGAN 4x+ Anime6B"]

/-- The resize-mode allow-list from consts.py. -/
def supportedResizeModes : List String :=
  ["Just resize", "Crop and resize", "Resize and fill", "Just resize (latent upscale)"]

/-- What validate_params reads from one ALL_CONFIG entry: a string with an
allow-list and default, a free string, a numeric range, or a bool. -/
inductive CfgKind where
  | strAllow (allow : List String) (dflt : String)
  | strFree
  | numeric (lo hi : ℚ)
  | boolean

/-- ALL_CONFIG from consts.py: declared kind, bounds, allow-list and default
of each config parameter; `none` for the non-config keys. -/
def cfgOf (e : Env) : ParamKey → Option CfgKind
  | .pfx => some .strFree
  | .negPfx => some .strFree
  | .steps => some (.numeric 0 50)
  | .cfg => some (.numeric 0 30)
  | .sampler => some (.strAllow supportedSamplers "DPM++ 2M")
  | .seed => some (.numeric (-1) 4294967294)
  | .width => some (.numeric 256 1024)
  | .height => some (.numeric 256 1024)
  | .vae => some (.strAllow (supportedVaes e) "Automatic")
  | .model => some (.strAllow (supportedModels e) "anythingV5")
  | .refiner => some (.strAllow (supportedRefiners e) "None")
  | .refinerSwitchAt => some (.numeric 0 1)
  | .scale => some (.numeric 1 2)
  | .denoisingStr => some (.numeric 0 1)
  | .highresSteps => some (.numeric 1 20)
  | .upscaler => some (.strAllow supportedUpscalers "Latent")
  | .autosize => some .boolean
  | .autosizeMaxsize => some (.numeric 256 1024)
  | .denoisingStrImg2img => some (.numeric 0 1)
  | .resizeMode => some (.strAllow supportedResizeModes "Crop and resize")
  | .resizeScale => some (.numeric (1/2) 2)
  | .prompt => none
  | .negPrompt => none
  | .batchSize => none
  | .imageUrl => none

/-- The ALL_CONFIG key list, in dict insertion order. -/
def configKeys : List ParamKey :=
  [.pfx, .negPfx, .steps, .cfg, .sampler, .seed, .width, .height, .vae, .model,
   .refiner, .refinerSwitchAt, .scale, .denoisingStr, .highresSteps, .upscaler,
   .autosize, .autosizeMaxsize, .denoisingStrImg2img, .resizeMode, .resizeScale]

/-- Python membership of a dict value in a list of strings: only an equal
string is a member. -/
def pvalInStrs (x : PVal) (l : List String) : Bool :=
  match x with
  | .str s => l.contains s
  | _ => false

/-- Whether validate_params raises: Python max(None, lo) and max(str, lo)
raise TypeError, so a numeric config key present with None or a string
aborts the call. -/
def validateCrashes (e : Env) (v : Params) : Bool :=
  configKeys.any (fun k =>
    match cfgOf e k, v k with
    | some (.numeric _ _), some (.str _) => true
    | some (.numeric _ _), some .pnone => true
    | _, _ => false)

/-- Clamping applied to a Python bool under a numeric config entry: max and
min return their first argument when the comparison ties, so a bool whose
0/1 value is already in range survives unchanged, and is otherwise replaced
by the clamped number. -/
def pyClampBool (lo hi : ℚ) (b : Bool) : PVal :=
  let x : ℚ := cond b 1 0
  if lo ≤ x ∧ x ≤ hi then PVal.bool b else PVal.num (min (max x lo) hi)

/-- The value validate_params leaves at one key: absent keys become None;
allow-listed strings are kept if in the allow-list, else replaced by the
default; numeric values are clamped to the declared range; everything else
is untouched. -/
def validatedAt (e : Env) (v : Params) (k : ParamKey) : Option PVal :=
  match cfgOf e k with
  | none => v k
  | some .strFree => match v k with | none => some .pnone | some x => some x
  | some .boolean => match v k with | none => some .pnone | some x => some x
  | some (.strAllow allow dflt) =>
    match v k with
    | none => some .pnone
    | some x => if pvalInStrs x allow then some x else some (.str dflt)
  | some (.numeric lo hi) =>
    match v k with
    | none => some .pnone
    | some (.num q) => some (.num (min (max q lo) hi))
    | some (.bool b) => some (pyClampBool lo hi b)
    | some x => some x

/-- Embedding of utils.validate_params: `none` models the TypeError raised
when a numeric parameter is present with a None or string value; otherwise
every config key is normalized by `validatedAt` and non-config keys pass
through. -/
def validate_params (e : Env) (v : Params) : Option Params :=
  if validateCrashes e v then none else some (fun k => validatedAt e v k)

/-! ### The ack-message codec
(src/modules/utils.py lines 174-273) -/

/-- Two-digit decimal rendering of a value below 100 (the fractional part of
a Python "%.2f"). -/
def pad2 (k : Nat) : List Char := if k < 10 then ['0', digitChar k] else natDigits k

/-- The hundredths rendered by "%.2f": classic round-half-even of q·100,
computed on the numerator and denominator with integer arithmetic
(a = 100·num, d = den; remainder r of a by d decides the rounding). -/
def round2 (q : ℚ) : Int :=
  let a : Int := 100 * q.num
  let d : Int := (q.den : Int)
  let n : Int := a / d
  let r : Int := a % d
  if 2 * r > d ∨ (2 * r = d ∧ n % 2 = 1) then n + 1 else n

/-- Digits of a nonnegative number of hundredths as "%.2f" renders them. -/
def fmt2Nat (k : Nat) : List Char := natDigits (k / 100) ++ '.' :: pad2 (k % 100)

/-- Python f-string "%.2f" formatting of an exact rational. -/
def fmt2 (q : ℚ) : List Char :=
  if q < 0 then '-' :: fmt2Nat (round2 (-q)).toNat else fmt2Nat (round2 q).toNat

/-- Python str() of a dict value interpolated into an f-string. Only
integral numbers are given a rendering (every plainly-interpolated numeric
parameter of the ack message is int-typed); a non-integral number would
render as a decimal the parser rejects, and is left unmodelled (none). -/
def pvalStr : PVal → Option (List Char)
  | .str s => some s.data
  | .num q => if q.den = 1 then some (intDigits q.num) else none
  | .bool b => some (if b then "True".data else "False".data)
  | .pnone => some "None".data

/-- Python "%.2f" f-string interpolation of a dict value: numbers (and bools,
which are ints in Python) format; strings and None raise TypeError. -/
def pvalFmt2 : PVal → Option (List Char)
  | .num q => some (fmt2 q)
  | .bool b => some (fmt2 (cond b 1 0))
  | _ => none

/-- Embedding of utils.make_message_str: the four mandatory ack lines, then
the img2img line when an image url is given, else the high-res line when
the scale value is present and exceeds 1. `none` models the exceptions
Python would raise (KeyError on a missing dict key, TypeError on formatting
a non-number with "%.2f" or comparing a string with 1). -/
def make_message_str (prompt negative_prompt : String) (batch_size : Int)
    (image_url : Option String) (values : Params) : Option String := do
  let model ← (values .model).bind pvalStr
  let vae ← (values .vae).bind pvalStr
  let w ← (values .width).bind pvalStr
  let h ← (values .height).bind pvalStr
  let st ← (values .steps).bind pvalStr
  let cf ← (values .cfg).bind pvalFmt2
  let sa ← (values .sampler).bind pvalStr
  let sd ← (values .seed).bind pvalStr
  let l1 := "Generating ".data ++ intDigits batch_size ++
    " images for prompt: ".data ++ prompt.data ++ ['\n']
  let l2 := "negative prompt: ".data ++ negative_prompt.data ++ ['\n']
  let l3 := "Using model: ".data ++ model ++ ", vae: ".data ++ vae ++
    ", image size: ".data ++ w ++ ['x'] ++ h ++ ['\n']
  let l4 := "Using steps: ".data ++ st ++ ", cfg: ".data ++ cf ++
    ", sampler: ".data ++ sa ++ ", seed ".data ++ sd ++ ['\n']
  let tail ← match image_url with
    | some url => do
      let rm ← (values .resizeMode).bind pvalStr
      let den ← (values .denoisingStrImg2img).bind pvalFmt2
      pure ("img2img resize mode: ".data ++ rm ++ ", denoising str ".data ++ den ++
        ", url: ".data ++ url.data)
    | none =>
      match values .scale with
      | none => none
      | some (.num q) =>
        if q > 1 then do
          let sc ← pvalFmt2 (.num q)
          let up ← (values .upscaler).bind pvalStr
          let hs ← (values .highresSteps).bind pvalStr
          let den ← (values .denoisingStr).bind pvalFmt2
          pure ("Upscaling by ".data ++ sc ++ " using highres upscaler ".data ++ up ++
            ", ".data ++ hs ++ " steps. Denoising str ".data ++ den ++ ['\n'])
        else pure []
      | some (.bool _) => pure []
      | some .pnone => pure []
      | some (.str _) => none
  pure ⟨l1 ++ l2 ++ l3 ++ l4 ++ tail⟩

/-- The line boundaries of Python str.splitlines: newline, carriage return,
vertical tab, form feed, the file, group and record separators, NEL, and
the Unicode line and paragraph separators. -/
def isLineBreak (c : Char) : Bool :=
  c = '\n' || c = '\r' || c = '\x0b' || c = '\x0c' || c = '\x1c' ||
  c = '\x1d' || c = '\x1e' || c = '\x85' || c = '\u2028' || c = '\u2029'

/-- str.splitlines before dropping the trailing piece: split at every line
boundary, where a carriage return immediately followed by a newline forms a
single break together with it. -/
def splitNL : List Char → List (List Char)
  | [] => [[]]
  | c :: rest =>
    match splitNL rest with
    | r :: rs =>
      if c = '\r' then
        match rest with
        | '\n' :: _ => r :: rs
        | _ => [] :: r :: rs
      else if isLineBreak c then [] :: r :: rs
      else (c :: r) :: rs
    | [] => []

/-- Python str.splitlines: the empty string has no lines, and a trailing
line break does not open a final empty line. -/
def pySplitlines (cs : List Char) : List (List Char) :=
  match splitNL cs with
  | [] => []
  | parts => if parts.getLast? = some [] then parts.dropLast else parts

/-- The building blocks of the parser's regular expressions: a literal, the
greedy and lazy one-or-more digit and any-character groups, and the cfg
shape of zero-or-more digits, one arbitrary character and exactly two
digits in one capture. -/
inductive Pat where
  | lit (s : List Char)
  | digitsG
  | digitsL
  | anyG
  | anyL
  | dec2

/-- The first defined value of f over a list of candidates. -/
def firstSome {α β : Type} (f : α → Option β) : List α → Option β
  | [] => none
  | a :: as =>
    match f a with
    | some b => some b
    | none => firstSome f as

/-- Candidate capture lengths in ascending order, 1 to n (a lazy group tries
short captures first). -/
def ascList (n : Nat) : List Nat := List.range' 1 n

/-- Candidate capture lengths in descending order, n down to 1 (a greedy
group tries long captures first). -/
def descList (n : Nat) : List Nat := (List.range' 1 n).reverse

/-- Candidate digit-run lengths for the cfg group, n down to 0. -/
def descList0 (n : Nat) : List Nat := (List.range' 0 (n + 1)).reverse

/-- re.match of a sequence of pattern pieces against the characters of one
line (anchored at the start, not at the end; the matched line never
contains a newline, so the any-character groups accept every character),
with full backtracking between a group's candidate lengths and the rest of
the pattern; returns the captured groups in order. -/
def mtch : List Pat → List Char → Option (List (List Char))
  | [], _ => some []
  | .lit s :: ps, cs => if s.isPrefixOf cs then mtch ps (cs.drop s.length) else none
  | .digitsG :: ps, cs =>
    firstSome (fun k => (mtch ps (cs.drop k)).map (fun gs => cs.take k :: gs))
      (descList (cs.takeWhile Char.isDigit).length)
  | .digitsL :: ps, cs =>
    firstSome (fun k => (mtch ps (cs.drop k)).map (fun gs => cs.take k :: gs))
      (ascList (cs.takeWhile Char.isDigit).length)
  | .anyG :: ps, cs =>
    firstSome (fun k => (mtch ps (cs.drop k)).map (fun gs => cs.take k :: gs))
      (descList cs.length)
  | .anyL :: ps, cs =>
    firstSome (fun k => (mtch ps (cs.drop k)).map (fun gs => cs.take k :: gs))
      (ascList cs.length)
  | .dec2 :: ps, cs =>
    firstSome (fun k =>
        match cs.drop k with
        | c :: d1 :: d2 :: rest =>
          if d1.isDigit && d2.isDigit then
            (mtch ps rest).map (fun gs => (cs.take k ++ [c, d1, d2]) :: gs)
          else none
        | _ => none)
      (descList0 (cs.takeWhile Char.isDigit).length)

/-- Regex of the first ack line. -/
def argPat1 : List Pat :=
  [.lit "Generating ".data, .digitsG, .lit " images for prompt: ".data, .anyG]

/-- Regex of the negative-prompt line. -/
def argPat2 : List Pat := [.lit "negative prompt: ".data, .anyG]

/-- Regex of the model/vae/size line. -/
def paramPat1 : List Pat :=
  [.lit "Using model: ".data, .anyL, .lit ", vae: ".data, .anyL,
   .lit ", image size: ".data, .digitsL, .lit "x".data, .digitsG]

/-- Regex of the steps/cfg/sampler/seed line. -/
def paramPat2 : List Pat :=
  [.lit "Using steps: ".data, .digitsL, .lit ", cfg: ".data, .dec2,
   .lit ", sampler: ".data, .anyL, .lit ", seed ".data, .digitsG]

/-- Regex of the img2img line. -/
def img2imgPat : List Pat :=
  [.lit "img2img resize mode: ".data, .anyL, .lit ", denoising str ".data, .dec2,
   .lit ", url: ".data, .anyG]

/-- Regex of the high-res line. -/
def hiresPat : List Pat :=
  [.lit "Upscaling by ".data, .dec2, .lit " using highres upscaler ".data, .anyL,
   .lit ", ".data, .digitsG, .lit " steps. Denoising str ".data, .dec2]

/-- The exception kinds the codec path can raise. -/
inductive PyErr where
  | valueError
  | keyError
  | indexError
  | attributeError
  | typeError
deriving DecidableEq

/-- The exception kinds the again command's except clause catches
(src/modules/cogs/sd_generation_commands.py line 371:
ValueError, KeyError, IndexError). -/
def againHandles : PyErr → Bool
  | .valueError => true
  | .keyError => true
  | .indexError => true
  | .attributeError => false
  | .typeError => false

/-- Python int() on a captured group: defined only on all-digit strings (the
digit groups guarantee this shape). -/
def pyIntOfDigits (cs : List Char) : Option Int :=
  if cs ≠ [] ∧ cs.all Char.isDigit then some ((digitsVal cs : Int)) else none

/-- Python float() on a captured group of the shapes the cfg group can
produce: optional digits, a decimal point, digits — or plain digits. -/
def pyFloatOfChars (cs : List Char) : Option ℚ :=
  let ip := cs.takeWhile Char.isDigit
  match cs.drop ip.length with
  | '.' :: frac =>
    if frac ≠ [] ∧ frac.all Char.isDigit then
      some ((digitsVal ip : ℚ) + (digitsVal frac : ℚ) / (10 : ℚ) ^ frac.length)
    else none
  | [] => if ip ≠ [] then some ((digitsVal ip : ℚ)) else none
  | _ => none

/-- Failing regex match: Python's match is None and the subsequent
match.group raises AttributeError. -/
def getGroups (pat : List Pat) (l : List Char) : Except PyErr (List (List Char)) :=
  match mtch pat l with
  | none => .error .attributeError
  | some gs => .ok gs

/-- match.group(i+1) of a successful match. -/
def nthGroup (gs : List (List Char)) (i : Nat) : Except PyErr (List Char) :=
  match gs.get? i with
  | none => .error .indexError
  | some g => .ok g

/-- int() coercion of a captured group into a dict value. -/
def toIntVal (cs : List Char) : Except PyErr PVal :=
  match pyIntOfDigits cs with
  | none => .error .valueError
  | some n => .ok (.num n)

/-- float() coercion of a captured group into a dict value. -/
def toFloatVal (cs : List Char) : Except PyErr PVal :=
  match pyFloatOfChars cs with
  | none => .error .valueError
  | some q => .ok (.num q)

/-- Dict update. -/
def setParam (v : Params) (k : ParamKey) (x : PVal) : Params :=
  fun k' => if k' = k then some x else v k'

/-- Embedding of utils.parse_message_str on the split lines: fewer than four
lines is a ValueError; each mandatory line is matched against its regex (a
failed match raises AttributeError); the optional fifth line is tried as
img2img, then as high-res, and ignored if neither matches; the collected
values, seeded with scale = 1, are passed through validate_params. -/
def parseLines (e : Env) : List (List Char) → Except PyErr Params
  | l1 :: l2 :: l3 :: l4 :: rest => do
    let g1 ← getGroups argPat1 l1
    let bs ← toIntVal (← nthGroup g1 0)
    let pr ← nthGroup g1 1
    let g2 ← getGroups argPat2 l2
    let np ← nthGroup g2 0
    let g3 ← getGroups paramPat1 l3
    let model ← nthGroup g3 0
    let vae ← nthGroup g3 1
    let w ← toIntVal (← nthGroup g3 2)
    let h ← toIntVal (← nthGroup g3 3)
    let g4 ← getGroups paramPat2 l4
    let st ← toIntVal (← nthGroup g4 0)
    let cf ← toFloatVal (← nthGroup g4 1)
    let sa ← nthGroup g4 2
    let sd ← toIntVal (← nthGroup g4 3)
    let values : Params :=
      setParam (setParam (setParam (setParam (setParam (setParam (setParam (setParam
        (setParam (setParam (setParam
          (fun k => if k = .scale then some (.num 1) else none)
          .batchSize bs) .prompt (.str ⟨pr⟩)) .negPrompt (.str ⟨np⟩))
          .model (.str ⟨model⟩)) .vae (.str ⟨vae⟩)) .width w) .height h)
          .steps st) .cfg cf) .sampler (.str ⟨sa⟩)) .seed sd
    let values ← match rest with
      | [] => pure values
      | l5 :: _ =>
        match mtch img2imgPat l5 with
        | some gi => do
          let rm ← nthGroup gi 0
          let den ← toFloatVal (← nthGroup gi 1)
          let url ← nthGroup gi 2
          pure (setParam (setParam (setParam values
            .resizeMode (.str ⟨rm⟩)) .denoisingStrImg2img den) .imageUrl (.str ⟨url⟩))
        | none =>
          match mtch hiresPat l5 with
          | some gh => do
            let sc ← toFloatVal (← nthGroup gh 0)
            let up ← nthGroup gh 1
            let hs ← toIntVal (← nthGroup gh 2)
            let den ← toFloatVal (← nthGroup gh 3)
            pure (setParam (setParam (setParam (setParam values
              .scale sc) .upscaler (.str ⟨up⟩)) .highresSteps hs) .denoisingStr den)
          | none => pure values
    match validate_params e values with
    | some r => .ok r
    | none => .error .typeError
  | _ => .error .valueError

/-- Embedding of utils.parse_message_str. -/
def parse_message_str (e : Env) (s : String) : Except PyErr Params :=
  parseLines e (pySplitlines s.data)

/-- The environment of the codec tests: the test model and vae injected into
the supported lists. -/
def c1Env : Env := ⟨["test model"], ["test vae"]⟩

/-- A valid parameter dict whose seed is −1 (−1 is within the declared seed
range and is the declared seed default). -/
def c1Params : Params := fun k =>
  match k with
  | .batchSize => some (.num 4)
  | .prompt => some (.str "a test prompt")
  | .negPrompt => some (.str "a test negative prompt")
  | .model => some (.str "test model")
  | .vae => some (.str "test vae")
  | .width => some (.num 256)
  | .height => some (.num 512)
  | .steps => some (.num 28)
  | .cfg => some (.num 8)
  | .sampler => some (.str "Euler")
  | .seed => some (.num (-1))
  | .scale => some (.num 1)
  | _ => none

/-- The ack message rendered from c1Params. -/
def c1Msg : String :=
  "Generating 4 images for prompt: a test prompt\nnegative prompt: a test negative prompt\nUsing model: test model, vae: test vae, image size: 256x512\nUsing steps: 28, cfg: 8.00, sampler: Euler, seed -1\n"

/-- The optional trailing block of an ack message: none, a high-res block
(scale in hundredths, upscaler, steps, denoising in hundredths), or an
img2img block (resize mode, denoising in hundredths, url). -/
inductive MsgExtra where
  | base
  | hires (scaleK : Nat) (upsc : String) (hsteps : Nat) (denK : Nat)
  | img (mode : String) (denK : Nat) (url : String)

/-- The image url carried by the extra block. -/
def extraUrl : MsgExtra → Option String
  | .img _ _ u => some u
  | _ => none

/-- A parameter dict carrying exactly the keys the ack message renders:
the four call arguments, the eight always-rendered parameters, the scale,
and the keys of the optional block. Fractional values are given in
hundredths, the shape "%.2f" rendering preserves exactly. -/
def mkRoundParams (bs : Nat) (pr np model vae : String) (w h st : Nat)
    (cfgK : Nat) (sa : String) (sd : Nat) (scaleQ : ℚ) (extra : MsgExtra) :
    Params := fun k =>
  match k with
  | .batchSize => some (.num bs)
  | .prompt => some (.str pr)
  | .negPrompt => some (.str np)
  | .model => some (.str model)
  | .vae => some (.str vae)
  | .width => some (.num w)
  | .height => some (.num h)
  | .steps => some (.num st)
  | .cfg => some (.num ((cfgK : ℚ) / 100))
  | .sampler => some (.str sa)
  | .seed => some (.num sd)
  | .scale => some (.num (match extra with
      | .hires sk _ _ _ => (sk : ℚ) / 100
      | _ => scaleQ))
  | .upscaler => match extra with | .hires _ u _ _ => some (.str u) | _ => none
  | .highresSteps => match extra with | .hires _ _ hs _ => some (.num hs) | _ => none
  | .denoisingStr => match extra with
      | .hires _ _ _ dk => some (.num ((dk : ℚ) / 100))
      | _ => none
  | .resizeMode => match extra with | .img md _ _ => some (.str md) | _ => none
  | .denoisingStrImg2img => match extra with
      | .img _ dk _ => some (.num ((dk : ℚ) / 100))
      | _ => none
  | .imageUrl => match extra with | .img _ _ u => some (.str u) | _ => none
  | _ => none

/-- A string that can stand on an ack line: nonempty and free of every
character str.splitlines breaks at. -/
def lineSafe (s : String) : Prop :=
  s.data ≠ [] ∧ ∀ c ∈ s.data, isLineBreak c = false

/-- A string rendered before a comma-led delimiter of the ack grammar:
additionally comma-free (a comma would let the lazy group split early). -/
def fieldSafe (s : String) : Prop := lineSafe s ∧ ',' ∉ s.data

/-- The first ack line as make_message_str renders it (without newline). -/
def ackLine1 (bsd pr : List Char) : List Char :=
  "Generating ".data ++ (bsd ++ (" images for prompt: ".data ++ pr))

/-- The negative-prompt ack line. -/
def ackLine2 (np : List Char) : List Char := "negative prompt: ".data ++ np

/-- The model/vae/size ack line. -/
def ackLine3 (model vae wd hd : List Char) : List Char :=
  "Using model: ".data ++ (model ++ (", vae: ".data ++ (vae ++
    (", image size: ".data ++ (wd ++ ('x' :: hd))))))

/-- The steps/cfg/sampler/seed ack line. -/
def ackLine4 (std : List Char) (cfgK : Nat) (sa sdd : List Char) : List Char :=
  "Using steps: ".data ++ (std ++ (", cfg: ".data ++ (fmt2Nat cfgK ++
    (", sampler: ".data ++ (sa ++ (", seed ".data ++ sdd))))))

/-- The img2img ack line. -/
def ackLine5i (md : List Char) (dk : Nat) (url : List Char) : List Char :=
  "img2img resize mode: ".data ++ (md ++ (", denoising str ".data ++
    (fmt2Nat dk ++ (", url: ".data ++ url))))

/-- The high-res ack line. -/
def ackLine5h (sk : Nat) (up hsd : List Char) (dk : Nat) : List Char :=
  "Upscaling by ".data ++ (fmt2Nat sk ++ (" using highres upscaler ".data ++
    (up ++ (", ".data ++ (hsd ++ (" steps. Denoising str ".data ++ fmt2Nat dk))))))

/-! ### The scheduler pass
(src/modules/sd_controller.py, _schedule_queues, lines 105-160)

Timestamps are Python floats compared and subtracted; the pass is embedded
over any linearly ordered ring of times (ℚ recovers the float values
arising in this code; Int is used for concrete runs). Workers are
identified by number. -/

/-- One model queue: its name, the creation times of its queued items (head
first), and the workers bound to it, in bind order. -/
structure WQueue (τ : Type) where
  model : String
  items : List τ
  workers : List Nat
deriving DecidableEq

/-- oldest_work_item of _schedule_queues: the head item's creation time, or
now for an empty queue. -/
def oldest_work_item {τ : Type} (items : List τ) (now : τ) : τ := items.headD now

/-- The scheduling pass's local classification state: the mutable available
list (a copy of workers) and the late, workable and free accumulators. -/
structure ClassifyState (τ : Type) where
  avail : List Nat
  late : List (τ × String)
  workable : List (τ × Nat × String)
  free : List Nat
deriving DecidableEq

/-- One queue's examination in the classification loop: a late queue is
recorded when unmanned, its workers are pinned (removed from available)
when manned; a non-late nonempty queue is workable; workers of an empty
queue are free. -/
def classifyStep {τ : Type} [LinearOrderedRing τ] (now : τ)
    (st : ClassifyState τ) (q : WQueue τ) : ClassifyState τ :=
  let latency := now - oldest_work_item q.items now
  if latency > 30 then
    if q.workers = [] then { st with late := st.late ++ [(latency, q.model)] }
    else { st with avail := q.workers.foldl List.erase st.avail }
  else if q.items.length > 0 then
    { st with workable := st.workable ++ [(latency, q.items.length, q.model)] }
  else if q.workers ≠ [] then { st with free := st.free ++ q.workers }
  else st

/-- The classification loop over all queues, in dict order. -/
def classifyAll {τ : Type} [LinearOrderedRing τ] (workers : List Nat)
    (queues : List (WQueue τ)) (now : τ) : ClassifyState τ :=
  queues.foldl (classifyStep now) ⟨workers, [], [], []⟩

/-- Stable insertion of an element into a key-sorted list: it goes after
every element whose key is not larger. -/
def insertByKey {α : Type} {κ : Type} [LinearOrder κ] (key : α → κ) (a : α) :
    List α → List α
  | [] => [a]
  | b :: bs => if key a < key b then a :: b :: bs else b :: insertByKey key a bs

/-- Ascending insertion sort by key: the effect of Python list.sort(key=...)
up to the order of equal keys (this insertion reverses ties; no property
proved here depends on the order of equal keys). -/
def sortByKey {α : Type} {κ : Type} [LinearOrder κ] (key : α → κ) :
    List α → List α
  | [] => []
  | a :: as => insertByKey key a (sortByKey key as)

/-- _attach_worker_to_queue: the worker is removed from every queue's worker
list (first occurrence) and appended to the list of the queue named by
model. -/
def attach {τ : Type} (queues : List (WQueue τ)) (w : Nat) (model : String) :
    List (WQueue τ) :=
  queues.map (fun q =>
    if q.model = model then { q with workers := q.workers.erase w ++ [w] }
    else { q with workers := q.workers.erase w })

/-- A sequence of rebinds. -/
def attachMany {τ : Type} (queues : List (WQueue τ)) (moves : List (Nat × String)) :
    List (WQueue τ) :=
  moves.foldl (fun qs p => attach qs p.1 p.2) queues

/-- The free-worker loop: each free worker is sent to the most late of the
remaining unmanned-late queues (popped from the end of the
ascending-sorted list), else to the highest-pressure workable queue, and
is removed from the available pool; the rebound queues, the remaining
late queues and the remaining available pool are returned. -/
def assignFree {τ : Type} (queues : List (WQueue τ)) :
    List Nat → List (τ × String) → List (τ × Nat × String) → List Nat →
    List (WQueue τ) × List (τ × String) × List Nat
  | [], late, _, avail => (queues, late, avail)
  | w :: ws, late, workable, avail =>
    match late.getLast? with
    | some (_, m) =>
      assignFree (attach queues w m) ws late.dropLast workable (avail.erase w)
    | none =>
      match workable.getLast? with
      | some (_, _, m) =>
        assignFree (attach queues w m) ws late workable.dropLast (avail.erase w)
      | none => assignFree queues ws late workable avail

/-- The head creation time of the queue a worker is currently bound to
(worker.get_queue()), or now when its queue is empty. -/
def workerKey {τ : Type} (queues : List (WQueue τ)) (now : τ) (w : Nat) : τ :=
  oldest_work_item (((queues.find? (fun q => q.workers.contains w)).map
    (fun q => q.items)).getD []) now

/-- The final loop of the pass: each remaining late queue pulls the first
worker of the sorted available pool, if any. -/
def pullWorkers {τ : Type} (queues : List (WQueue τ)) :
    List (τ × String) → List Nat → List (WQueue τ)
  | [], _ => queues
  | _ :: rest, [] => pullWorkers queues rest []
  | (_, m) :: rest, w :: ws => pullWorkers (attach queues w m) rest ws

/-- The pass up to (and including) the final sort of the available pool:
classification, sorting of the late and workable lists, the free-worker
loop, and the sort of the remaining available workers by the age of their
current queue's head. -/
def schedule_mid {τ : Type} [LinearOrderedRing τ] (workers : List Nat)
    (queues : List (WQueue τ)) (now : τ) :
    List (WQueue τ) × List (τ × String) × List Nat :=
  let st := classifyAll workers queues now
  let lateS := sortByKey Prod.fst st.late
  let workableS := sortByKey (fun t => t.1 * 5 + (t.2.1 : τ)) st.workable
  let r := assignFree queues st.free lateS workableS st.avail
  (r.1, r.2.1, sortByKey (workerKey r.1 now) r.2.2)

/-- Embedding of _schedule_queues: the mid-pass state followed by the
pulling of additional workers for the late queues that remain. -/
def schedule_queues {τ : Type} [LinearOrderedRing τ] (workers : List Nat)
    (queues : List (WQueue τ)) (now : τ) : List (WQueue τ) :=
  let r := schedule_mid workers queues now
  pullWorkers r.1 r.2.1 r.2.2

/-- The worker list of the queue named by a model. -/
def workersOfModel {τ : Type} (queues : List (WQueue τ)) (m : String) : List Nat :=
  ((queues.find? (fun q => q.model = m)).map (fun q => q.workers)).getD []

/-- A concrete scheduling scenario (integer timestamps, now = 100): queue m1
has a young head (95) served by worker 0, m2 an older head (75) served by
worker 1, m3 an unmanned late head (50). -/
def c4Queues : List (WQueue Int) :=
  [⟨"m1", [95], [0]⟩, ⟨"m2", [75], [1]⟩, ⟨"m3", [50], []⟩]

/-- The c4 scenario extended with a manned-late queue mA (head 10, worker 2). -/
def c3Queues : List (WQueue Int) :=
  [⟨"mA", [10], [2]⟩, ⟨"m1", [95], [0]⟩, ⟨"m2", [75], [1]⟩, ⟨"m3", [50], []⟩]

/-! ### Theorems for claims C5, C6, C7, C8 -/

/-- Truncation toward zero agrees with the floor on nonnegative rationals. -/
theorem pyIntOfRat_eq_floor (q : ℚ) (h : 0 ≤ q) : pyIntOfRat q = ⌊q⌋ := by
  rw [pyIntOfRat, Rat.floor_def]
  exact Int.tdiv_eq_ediv (Rat.num_nonneg.2 h) (Int.natCast_nonneg _)

/-- Claim C5: in_flight_gen_cap resolves the cap in priority order: a
user-specific cap if present, else the channel's cap, else the category's
cap, else the guild's cap, else the configured default, else the hardcoded
default constant. -/
theorem in_flight_gen_cap_priority (c : DiscordConfig) (user : Int)
    (channel_id category_id guild_id : Option Int) :
    in_flight_gen_cap c user channel_id category_id guild_id =
      capResolutionSpec c user channel_id category_id guild_id := by
  have hstep : ∀ (s : List (String × Option Int)) (cap : Option Int) (sid : Option Int),
      capFallback s cap sid =
        (cap <|> sid.bind (fun i => (alookup s (⟨intDigits i⟩ : String)).bind id)) := by
    intro s cap sid
    cases cap <;> cases sid <;> rfl
  have hdflt : ∀ cap, capFallbackDefault c cap =
      (cap <|> c.user_in_flight_caps.bind (fun m => alookup m "default")) := by
    intro cap
    cases cap <;> rfl
  unfold in_flight_gen_cap capResolutionSpec capAfterUser
  rw [hstep, hstep, hstep, hdflt]
  rcases c.user_in_flight_caps.bind (fun m => alookup m (⟨intDigits user⟩ : String)) with _ | v <;>
    rcases channel_id.bind
        (fun i => (alookup c.channels (⟨intDigits i⟩ : String)).bind id) with _ | v2 <;>
      rcases category_id.bind
          (fun i => (alookup c.categories (⟨intDigits i⟩ : String)).bind id) with _ | v3 <;>
        rcases guild_id.bind
            (fun i => (alookup c.guilds (⟨intDigits i⟩ : String)).bind id) with _ | v4 <;>
          rfl

/-- Claim C6: max_batch_size w h scale upscaler equals
min (floor (M / (w·h·scale²))) 4, where M is the latent pixel budget when
the upscaler is the latent upscaler or unspecified and the ESRGAN budget
otherwise, with scale defaulting to 1 when unspecified. -/
theorem max_batch_size_formula (width height : Int) (scale : Option ℚ)
    (upscaler : Option String) (hw : 0 < width) (hh : 0 < height)
    (hs : 0 < scale.getD 1) :
    max_batch_size width height scale upscaler =
      min ⌊((if upscaler.getD "Latent" = "Latent" then (MAX_PIXEL_COUNT_LATENT : ℚ)
             else (MAX_PIXEL_COUNT_ESRGAN : ℚ)) /
            ((width : ℚ) * (height : ℚ) * (scale.getD 1) ^ 2))⌋ 4 := by
  unfold max_batch_size
  have hM : (0:ℚ) ≤ (if upscaler.getD "Latent" = "Latent" then (MAX_PIXEL_COUNT_LATENT : ℚ)
      else (MAX_PIXEL_COUNT_ESRGAN : ℚ)) := by
    split <;> norm_num [MAX_PIXEL_COUNT_LATENT, MAX_PIXEL_COUNT_ESRGAN]
  have hpc : (0:ℚ) < (width : ℚ) * (height : ℚ) * (scale.getD 1) * (scale.getD 1) := by
    have hw' : (0:ℚ) < (width : ℚ) := by exact_mod_cast hw
    have hh' : (0:ℚ) < (height : ℚ) := by exact_mod_cast hh
    positivity
  rw [pyIntOfRat_eq_floor _ (div_nonneg hM (le_of_lt hpc))]
  have hsq : (width : ℚ) * (height : ℚ) * (scale.getD 1) * (scale.getD 1) =
      (width : ℚ) * (height : ℚ) * (scale.getD 1) ^ 2 := by ring
  rw [hsq]

/-- Concrete instance of max_batch_size_formula at 512x512, scale 2, latent
upscaler. -/
theorem max_batch_size_formula_witness :
    0 < (512 : Int) ∧ (0:ℚ) < (some (2:ℚ)).getD 1 ∧
    max_batch_size 512 512 (some 2) (some "Latent") =
      min ⌊((if (some "Latent").getD "Latent" = "Latent" then (MAX_PIXEL_COUNT_LATENT : ℚ)
             else (MAX_PIXEL_COUNT_ESRGAN : ℚ)) /
            (((512 : Int) : ℚ) * ((512 : Int) : ℚ) * ((some (2:ℚ)).getD 1) ^ 2))⌋ 4 :=
  ⟨by norm_num, by norm_num [Option.getD_some],
   max_batch_size_formula 512 512 (some 2) (some "Latent") (by norm_num) (by norm_num)
     (by norm_num [Option.getD_some])⟩

/-- A submitted seed of −1 is replaced by the draw itself. -/
theorem seedAfterAdmission_neg_one (r : Nat) : seedAfterAdmission (-1) r = r := by
  simp [seedAfterAdmission]

/-- Claim C7 counterexample: the claim asserts that 2^32 − 2 = 4294967294 is
a possible replacement for a submitted seed of −1, but no draw of
random.randrange(4294967294) produces it. -/
theorem seed_replacement_top_value_impossible :
    ¬ ∃ r : Nat, r < randrangeArg ∧ seedAfterAdmission (-1) r = 4294967294 := by
  rintro ⟨r, hr, he⟩
  rw [seedAfterAdmission_neg_one] at he
  unfold randrangeArg at hr
  omega

/-- Claim C7 as amended: a submitted seed of −1 is replaced by the uniform
draw itself, and the set of possible replacement values is exactly the
integer range [0, 2^32 − 3] = [0, 4294967293]; 2^32 − 2 is not attainable. -/
theorem seed_replacement_range :
    (∀ x : Int, (∃ r : Nat, r < randrangeArg ∧ seedAfterAdmission (-1) r = x) ↔
       0 ≤ x ∧ x ≤ 4294967293) ∧
    (∀ r : Nat, seedAfterAdmission (-1) r = r) := by
  constructor
  · intro x
    constructor
    · rintro ⟨r, hr, he⟩
      rw [seedAfterAdmission_neg_one] at he
      unfold randrangeArg at hr
      omega
    · rintro ⟨h0, h1⟩
      refine ⟨x.toNat, by unfold randrangeArg; omega, ?_⟩
      rw [seedAfterAdmission_neg_one]
      omega
  · intro r
    exact seedAfterAdmission_neg_one r

/-- Concrete instance of seed_replacement_range: 4294967293 is attainable. -/
theorem seed_replacement_range_witness :
    ∃ r : Nat, r < randrangeArg ∧ seedAfterAdmission (-1) r = 4294967293 :=
  (seed_replacement_range.1 4294967293).mpr (by norm_num)

/-!  Claims C2 and C10: validate_params -/

/-- A kept or defaulted allow-listed string is in the allow-list provided
the default is. -/
theorem validatedAt_strAllow (e : Env) (v : Params) (k : ParamKey)
    (allow : List String) (dflt : String)
    (hk : cfgOf e k = some (.strAllow allow dflt)) (hd : dflt ∈ allow)
    (s : String) (hs : validatedAt e v k = some (.str s)) : s ∈ allow := by
  unfold validatedAt at hs
  rw [hk] at hs
  rcases hv : v k with _ | x <;> rw [hv] at hs <;> dsimp only at hs
  · exact absurd hs (by simp)
  · by_cases hmem : pvalInStrs x allow
    · rw [if_pos hmem] at hs
      cases x with
      | str s0 =>
        cases hs
        exact List.mem_of_elem_eq_true hmem
      | num q => simp [pvalInStrs] at hmem
      | bool b => simp [pvalInStrs] at hmem
      | pnone => simp [pvalInStrs] at hmem
    · rw [if_neg hmem] at hs
      cases hs
      exact hd

/-- A numeric value surviving validate_params lies in the declared range. -/
theorem validatedAt_numeric (e : Env) (v : Params) (k : ParamKey)
    (lo hi : ℚ) (hk : cfgOf e k = some (.numeric lo hi)) (hlohi : lo ≤ hi)
    (q : ℚ) (hq : validatedAt e v k = some (.num q)) : lo ≤ q ∧ q ≤ hi := by
  unfold validatedAt at hq
  rw [hk] at hq
  rcases hv : v k with _ | x <;> rw [hv] at hq <;> dsimp only at hq
  · exact absurd hq (by simp)
  · cases x with
    | num q0 =>
      dsimp only at hq
      cases hq
      exact ⟨le_min (le_max_right q0 lo) hlohi, min_le_right _ _⟩
    | str s0 =>
      dsimp only at hq
      exact absurd hq (by simp)
    | bool b =>
      dsimp only at hq
      simp only [pyClampBool] at hq
      split at hq
      · exact absurd hq (by simp)
      · cases hq
        exact ⟨le_min (le_max_right _ lo) hlohi, min_le_right _ _⟩
    | pnone =>
      dsimp only at hq
      exact absurd hq (by simp)

/-- With the default model available, the declared default of every
allow-listed parameter is in its allow-list. -/
theorem cfg_default_mem (e : Env) (hmodel : "anythingV5" ∈ supportedModels e) :
    ∀ k allow dflt, cfgOf e k = some (.strAllow allow dflt) → dflt ∈ allow := by
  intro k allow dflt hk
  cases k <;>
    first
    | (injection hk; done)
    | (injection hk with h; exact CfgKind.noConfusion h)
    | (injection hk with h; injection h with h1 h2; subst h1; subst h2;
       first
       | exact hmodel
       | exact List.mem_cons_self _ _
       | decide)

/-- Every declared numeric range has its lower bound at most its upper
bound. -/
theorem cfg_lo_le_hi (e : Env) :
    ∀ k lo hi, cfgOf e k = some (.numeric lo hi) → lo ≤ hi := by
  intro k lo hi hk
  cases k <;>
    first
    | (injection hk; done)
    | (injection hk with h; exact CfgKind.noConfusion h)
    | (injection hk with h; injection h with h1 h2; subst h1; subst h2; norm_num)

/-- Claim C2 counterexample: with the statically declared model allow-list
(empty until checkpoint files are discovered), validate_params maps an
unknown model string to the default "anythingV5", which is not in the
allow-list — so not every allow-listed string parameter of the result is in
its allow-list. -/
theorem validate_params_model_default_escapes :
    (validate_params ⟨[], []⟩ (fun k => if k = .model then some (.str "unknown model") else none)).map
        (fun r => r .model) = some (some (.str "anythingV5")) ∧
    cfgOf ⟨[], []⟩ .model = some (.strAllow [] "anythingV5") ∧
    "anythingV5" ∉ ([] : List String) := by
  refine ⟨by decide, rfl, by simp⟩

/-- Claim C2 as amended: whenever validate_params returns (and the default
model name is available in the discovered checkpoint list — for every other
allow-listed parameter the declared default is always in its allow-list),
every allow-listed string parameter of the result is in its allow-list and
every numeric parameter value lies within its declared bounds. -/
theorem validate_params_ranges (e : Env) (v : Params)
    (hmodel : "anythingV5" ∈ supportedModels e) (r : Params)
    (hr : validate_params e v = some r) :
    (∀ k allow dflt, cfgOf e k = some (.strAllow allow dflt) →
       ∀ s, r k = some (.str s) → s ∈ allow) ∧
    (∀ k lo hi, cfgOf e k = some (.numeric lo hi) →
       ∀ q, r k = some (.num q) → lo ≤ q ∧ q ≤ hi) := by
  unfold validate_params at hr
  split at hr
  · exact absurd hr (by simp)
  · cases hr
    constructor
    · intro k allow dflt hk s hs
      exact validatedAt_strAllow e v k allow dflt hk
        (cfg_default_mem e hmodel k allow dflt hk) s hs
    · intro k lo hi hk q hq
      exact validatedAt_numeric e v k lo hi hk (cfg_lo_le_hi e k lo hi hk) q hq

/-- Concrete instance of validate_params_ranges: an environment providing
the default model, a dict with an unknown sampler and an oversized steps
value. -/
theorem validate_params_ranges_witness :
    (∀ k allow dflt, cfgOf ⟨["anythingV5"], []⟩ k = some (.strAllow allow dflt) →
       ∀ s, (fun k => validatedAt ⟨["anythingV5"], []⟩
              (fun k => if k = .sampler then some (.str "bogus")
                        else if k = .steps then some (.num 100) else none) k) k =
           some (.str s) → s ∈ allow) ∧
    (∀ k lo hi, cfgOf ⟨["anythingV5"], []⟩ k = some (.numeric lo hi) →
       ∀ q, (fun k => validatedAt ⟨["anythingV5"], []⟩
              (fun k => if k = .sampler then some (.str "bogus")
                        else if k = .steps then some (.num 100) else none) k) k =
           some (.num q) → lo ≤ q ∧ q ≤ hi) :=
  validate_params_ranges ⟨["anythingV5"], []⟩
    (fun k => if k = .sampler then some (.str "bogus")
              else if k = .steps then some (.num 100) else none)
    (by simp [supportedModels])
    _
    (by unfold validate_params
        rw [show validateCrashes ⟨["anythingV5"], []⟩
              (fun k => if k = .sampler then some (.str "bogus")
                        else if k = .steps then some (.num 100) else none) = false
            from by decide]
        rfl)

/-- The validated value at a config key is always present. -/
theorem validatedAt_isSome (e : Env) (v : Params) (k : ParamKey)
    (hk : cfgOf e k ≠ none) : (validatedAt e v k).isSome := by
  unfold validatedAt
  rcases hcfg : cfgOf e k with _ | kind
  · exact absurd hcfg hk
  · cases kind <;> (try dsimp only) <;> rcases v k with _ | x <;> (try dsimp only) <;>
      first
      | rfl
      | (split <;> rfl)

/-- A config key absent from the input validates to None. -/
theorem validatedAt_absent (e : Env) (v : Params) (k : ParamKey)
    (hk : cfgOf e k ≠ none) (hv : v k = none) : validatedAt e v k = some .pnone := by
  unfold validatedAt
  rcases hcfg : cfgOf e k with _ | kind
  · exact absurd hcfg hk
  · cases kind <;> (try dsimp only) <;> rw [hv]

/-- Claim C10: validate_params is total on the declared parameter space —
the result carries every ALL_CONFIG key, and a key absent from the input is
mapped to None. -/
theorem validate_params_total (e : Env) (v : Params) (r : Params)
    (hr : validate_params e v = some r) :
    ∀ k ∈ configKeys, (r k).isSome ∧ (v k = none → r k = some .pnone) := by
  unfold validate_params at hr
  split at hr
  · exact absurd hr (by simp)
  · cases hr
    intro k hk
    refine ⟨validatedAt_isSome e v k ?_, fun hv => validatedAt_absent e v k ?_ hv⟩ <;>
      fin_cases hk <;> simp [cfgOf]

/-- Concrete instance of validate_params_total: the empty dict validates to
a dict presenting None at every config key. -/
theorem validate_params_total_witness :
    ((fun k => validatedAt ⟨[], []⟩ (fun _ => none) k) ParamKey.steps).isSome ∧
    ((fun _ => (none : Option PVal)) ParamKey.steps = none →
      (fun k => validatedAt ⟨[], []⟩ (fun _ => none) k) ParamKey.steps = some .pnone) :=
  validate_params_total ⟨[], []⟩ (fun _ => none) _
    (by unfold validate_params
        rw [show validateCrashes ⟨[], []⟩ (fun _ => none) = false from by decide]
        rfl)
    ParamKey.steps (by decide)

/-!  Claims C3 and C4: the scheduler pass -/

/-- Erasing a sequence of elements only shrinks a list. -/
theorem mem_of_mem_foldl_erase (xs : List Nat) :
    ∀ (l : List Nat) (w : Nat), w ∈ xs.foldl List.erase l → w ∈ l := by
  induction xs with
  | nil => intro l w h; exact h
  | cons x xs ih =>
    intro l w h
    exact List.mem_of_mem_erase (ih (l.erase x) w h)

/-- Erasing preserves the absence of duplicates. -/
theorem nodup_foldl_erase (xs : List Nat) :
    ∀ (l : List Nat), l.Nodup → (xs.foldl List.erase l).Nodup := by
  induction xs with
  | nil => intro l h; exact h
  | cons x xs ih => intro l h; exact ih (l.erase x) (h.erase x)

/-- Erasing every element of xs from a duplicate-free list removes each
member of xs. -/
theorem not_mem_foldl_erase (xs : List Nat) :
    ∀ (l : List Nat), l.Nodup → ∀ w ∈ xs, w ∉ xs.foldl List.erase l := by
  induction xs with
  | nil => intro l _ w h; exact absurd h (List.not_mem_nil w)
  | cons x xs ih =>
    intro l hl w hw hmem
    rcases List.mem_cons.mp hw with h | h
    · subst h
      have : w ∈ l.erase w := mem_of_mem_foldl_erase xs (l.erase w) w hmem
      exact ((hl.mem_erase_iff.mp this).1) rfl
    · exact ih (l.erase x) (hl.erase x) w h hmem

/-- Membership in a stable insertion. -/
theorem mem_insertByKey {α κ : Type} [LinearOrder κ] (key : α → κ) (a x : α) :
    ∀ l : List α, x ∈ insertByKey key a l ↔ x = a ∨ x ∈ l := by
  intro l
  induction l with
  | nil => simp [insertByKey]
  | cons b bs ih =>
    unfold insertByKey
    split
    · simp [List.mem_cons]
    · simp only [List.mem_cons, ih]
      tauto

/-- A stable insertion yields a permutation. -/
theorem perm_insertByKey {α κ : Type} [LinearOrder κ] (key : α → κ) (a : α) :
    ∀ l : List α, List.Perm (insertByKey key a l) (a :: l) := by
  intro l
  induction l with
  | nil => rfl
  | cons b bs ih =>
    unfold insertByKey
    split
    · rfl
    · exact (List.Perm.cons b ih).trans (List.Perm.swap a b bs)

/-- The stable sort is a permutation of its input. -/
theorem perm_sortByKey {α κ : Type} [LinearOrder κ] (key : α → κ) :
    ∀ l : List α, List.Perm (sortByKey key l) l := by
  intro l
  induction l with
  | nil => rfl
  | cons a as ih =>
    unfold sortByKey
    exact (perm_insertByKey key a (sortByKey key as)).trans (ih.cons a)

/-- Inserting into a key-sorted list keeps it key-sorted. -/
theorem pairwise_insertByKey {α κ : Type} [LinearOrder κ] (key : α → κ) (a : α) :
    ∀ l : List α, l.Pairwise (fun x y => key x ≤ key y) →
      (insertByKey key a l).Pairwise (fun x y => key x ≤ key y) := by
  intro l
  induction l with
  | nil => intro _; simp [insertByKey]
  | cons b bs ih =>
    intro hp
    unfold insertByKey
    rcases List.pairwise_cons.mp hp with ⟨hb, hbs⟩
    split
    · refine List.pairwise_cons.mpr ⟨?_, hp⟩
      intro x hx
      rcases List.mem_cons.mp hx with h | h
      · subst h; exact le_of_lt (by assumption)
      · exact le_trans (le_of_lt (by assumption)) (hb x h)
    · refine List.pairwise_cons.mpr ⟨?_, ih hbs⟩
      intro x hx
      rcases (mem_insertByKey key a x bs).mp hx with h | h
      · subst h; exact le_of_not_lt (by assumption)
      · exact hb x h

/-- The stable sort is key-sorted. -/
theorem pairwise_sortByKey {α κ : Type} [LinearOrder κ] (key : α → κ) :
    ∀ l : List α, (sortByKey key l).Pairwise (fun x y => key x ≤ key y) := by
  intro l
  induction l with
  | nil => exact List.Pairwise.nil
  | cons a as ih => exact pairwise_insertByKey key a (sortByKey key as) ih

/-- The head of the sorted available pool minimizes the key over the pool. -/
theorem sortByKey_head_min {α κ : Type} [LinearOrder κ] (key : α → κ)
    (l : List α) (w : α) (ws : List α) (h : sortByKey key l = w :: ws) :
    ∀ u ∈ l, key w ≤ key u := by
  intro u hu
  have hmem : u ∈ sortByKey key l := (perm_sortByKey key l).mem_iff.mpr hu
  rw [h] at hmem
  rcases List.mem_cons.mp hmem with h1 | h1
  · subst h1; exact le_refl _
  · have hp := pairwise_sortByKey key l
    rw [h] at hp
    exact (List.pairwise_cons.mp hp).1 u h1

/-- attach preserves the models of the queues. -/
theorem attach_map_model {τ : Type} (qs : List (WQueue τ)) (w : Nat) (m : String) :
    (attach qs w m).map WQueue.model = qs.map WQueue.model := by
  unfold attach
  rw [List.map_map]
  apply List.map_congr_left
  intro q _
  by_cases h : q.model = m <;> simp [h]

/-- A rebind of a different worker does not change any queue's model or
whether it holds the observed worker. -/
theorem attach_pres_contains {τ : Type} (qs : List (WQueue τ)) (w' : Nat) (m : String)
    (w : Nat) (hw : w' ≠ w) :
    (attach qs w' m).map (fun q => (q.model, decide (w ∈ q.workers))) =
      qs.map (fun q => (q.model, decide (w ∈ q.workers))) := by
  unfold attach
  rw [List.map_map]
  apply List.map_congr_left
  intro q _
  have hmem : ∀ l : List Nat, (w ∈ l.erase w' ++ [w']) ↔ w ∈ l := by
    intro l
    constructor
    · intro hmem
      rcases List.mem_append.mp hmem with h2 | h2
      · exact List.mem_of_mem_erase h2
      · exact absurd (List.mem_singleton.mp h2) (Ne.symm hw)
    · intro h
      exact List.mem_append_left _ ((List.mem_erase_of_ne (Ne.symm hw)).mpr h)
  have hmem2 : ∀ l : List Nat, (w ∈ l.erase w') ↔ w ∈ l :=
    fun l => List.mem_erase_of_ne (Ne.symm hw)
  dsimp only [Function.comp]
  by_cases h : q.model = m
  · rw [if_pos h]
    exact congrArg (fun b => (q.model, b)) (decide_eq_decide.mpr (hmem q.workers))
  · rw [if_neg h]
    exact congrArg (fun b => (q.model, b)) (decide_eq_decide.mpr (hmem2 q.workers))

/-- A sequence of rebinds of workers other than the observed one does not
change any queue's model or whether it holds that worker. -/
theorem attachMany_pres_contains {τ : Type} (w : Nat) (moves : List (Nat × String)) :
    ∀ qs : List (WQueue τ), (∀ p ∈ moves, p.1 ≠ w) →
      (attachMany qs moves).map (fun q => (q.model, decide (w ∈ q.workers))) =
        qs.map (fun q => (q.model, decide (w ∈ q.workers))) := by
  induction moves with
  | nil => intro qs _; rfl
  | cons p moves ih =>
    intro qs hmov
    have h1 := ih (attach qs p.1 p.2) (fun p hp => hmov p (List.mem_cons_of_mem _ hp))
    have h2 := attach_pres_contains qs p.1 p.2 w (hmov p (List.mem_cons_self _ _))
    calc (attachMany qs (p :: moves)).map (fun q => (q.model, decide (w ∈ q.workers)))
        = (attachMany (attach qs p.1 p.2) moves).map
            (fun q => (q.model, decide (w ∈ q.workers))) := rfl
      _ = (attach qs p.1 p.2).map (fun q => (q.model, decide (w ∈ q.workers))) := h1
      _ = qs.map (fun q => (q.model, decide (w ∈ q.workers))) := h2

/-- One classification step never adds to the available pool. -/
theorem classify_step_avail_sub {τ : Type} [LinearOrderedRing τ] (now : τ)
    (st : ClassifyState τ) (q : WQueue τ) :
    (classifyStep now st q).avail ⊆ st.avail := by
  unfold classifyStep
  dsimp only
  split
  · split
    · exact fun x hx => hx
    · exact fun x hx => mem_of_mem_foldl_erase _ _ _ hx
  · split
    · exact fun x hx => hx
    · split
      · exact fun x hx => hx
      · exact fun x hx => hx

/-- One classification step keeps the available pool duplicate-free. -/
theorem classify_step_avail_nodup {τ : Type} [LinearOrderedRing τ] (now : τ)
    (st : ClassifyState τ) (q : WQueue τ) (h : st.avail.Nodup) :
    (classifyStep now st q).avail.Nodup := by
  unfold classifyStep
  dsimp only
  split
  · split
    · exact h
    · exact nodup_foldl_erase _ _ h
  · split
    · exact h
    · split
      · exact h
      · exact h

/-- Free workers recorded by one step come from an empty queue. -/
theorem classify_step_free_src {τ : Type} [LinearOrderedRing τ] (now : τ)
    (st : ClassifyState τ) (q : WQueue τ) (w : Nat)
    (h : w ∈ (classifyStep now st q).free) :
    w ∈ st.free ∨ (q.items = [] ∧ w ∈ q.workers) := by
  unfold classifyStep at h
  dsimp only at h
  split at h
  · split at h
    · exact Or.inl h
    · exact Or.inl h
  · split at h
    · exact Or.inl h
    · split at h
      · rcases List.mem_append.mp h with h1 | h1
        · exact Or.inl h1
        · refine Or.inr ⟨List.length_eq_zero.mp ?_, h1⟩
          omega
      · exact Or.inl h

/-- Late entries recorded by one step carry the model of a queue. -/
theorem classify_step_late_src {τ : Type} [LinearOrderedRing τ] (now : τ)
    (st : ClassifyState τ) (q : WQueue τ) (p : τ × String)
    (h : p ∈ (classifyStep now st q).late) :
    p ∈ st.late ∨ p.2 = q.model := by
  unfold classifyStep at h
  dsimp only at h
  split at h
  · split at h
    · rcases List.mem_append.mp h with h1 | h1
      · exact Or.inl h1
      · right
        rw [List.mem_singleton.mp h1]
    · exact Or.inl h
  · split at h
    · exact Or.inl h
    · split at h
      · exact Or.inl h
      · exact Or.inl h

/-- The step at a manned-late queue removes its workers from the available
pool. -/
theorem classify_step_pinned {τ : Type} [LinearOrderedRing τ] (now : τ)
    (st : ClassifyState τ) (q : WQueue τ)
    (hlate : now - oldest_work_item q.items now > 30) (hmanned : q.workers ≠ [])
    (hnd : st.avail.Nodup) (w : Nat) (hw : w ∈ q.workers) :
    w ∉ (classifyStep now st q).avail := by
  unfold classifyStep
  dsimp only
  rw [if_pos hlate, if_neg hmanned]
  exact not_mem_foldl_erase _ _ hnd w hw

/-- The classification loop never adds to the available pool. -/
theorem classify_fold_avail_sub {τ : Type} [LinearOrderedRing τ] (now : τ) :
    ∀ (Qs : List (WQueue τ)) (st : ClassifyState τ),
      (Qs.foldl (classifyStep now) st).avail ⊆ st.avail := by
  intro Qs
  induction Qs with
  | nil => intro st x hx; exact hx
  | cons q Qs ih =>
    intro st x hx
    exact classify_step_avail_sub now st q (ih (classifyStep now st q) hx)

/-- The classification loop keeps the available pool duplicate-free. -/
theorem classify_fold_avail_nodup {τ : Type} [LinearOrderedRing τ] (now : τ) :
    ∀ (Qs : List (WQueue τ)) (st : ClassifyState τ), st.avail.Nodup →
      (Qs.foldl (classifyStep now) st).avail.Nodup := by
  intro Qs
  induction Qs with
  | nil => intro st h; exact h
  | cons q Qs ih =>
    intro st h
    exact ih (classifyStep now st q) (classify_step_avail_nodup now st q h)

/-- Free workers recorded by the loop come from an empty queue. -/
theorem classify_fold_free_src {τ : Type} [LinearOrderedRing τ] (now : τ) :
    ∀ (Qs : List (WQueue τ)) (st : ClassifyState τ) (w : Nat),
      w ∈ (Qs.foldl (classifyStep now) st).free →
      w ∈ st.free ∨ ∃ q ∈ Qs, q.items = [] ∧ w ∈ q.workers := by
  intro Qs
  induction Qs with
  | nil => intro st w h; exact Or.inl h
  | cons q Qs ih =>
    intro st w h
    rcases ih (classifyStep now st q) w h with h1 | ⟨q1, hq1, h2⟩
    · rcases classify_step_free_src now st q w h1 with h2 | h2
      · exact Or.inl h2
      · exact Or.inr ⟨q, List.mem_cons_self _ _, h2⟩
    · exact Or.inr ⟨q1, List.mem_cons_of_mem _ hq1, h2⟩

/-- Late entries recorded by the loop carry the model of a queue. -/
theorem classify_fold_late_src {τ : Type} [LinearOrderedRing τ] (now : τ) :
    ∀ (Qs : List (WQueue τ)) (st : ClassifyState τ) (p : τ × String),
      p ∈ (Qs.foldl (classifyStep now) st).late →
      p ∈ st.late ∨ ∃ q ∈ Qs, p.2 = q.model := by
  intro Qs
  induction Qs with
  | nil => intro st p h; exact Or.inl h
  | cons q Qs ih =>
    intro st p h
    rcases ih (classifyStep now st q) p h with h1 | ⟨q1, hq1, h2⟩
    · rcases classify_step_late_src now st q p h1 with h2 | h2
      · exact Or.inl h2
      · exact Or.inr ⟨q, List.mem_cons_self _ _, h2⟩
    · exact Or.inr ⟨q1, List.mem_cons_of_mem _ hq1, h2⟩

/-- After the loop, no worker of a manned-late queue remains available. -/
theorem classify_fold_pinned {τ : Type} [LinearOrderedRing τ] (now : τ) :
    ∀ (Qs : List (WQueue τ)) (st : ClassifyState τ), st.avail.Nodup →
      ∀ q0 ∈ Qs, now - oldest_work_item q0.items now > 30 → q0.workers ≠ [] →
      ∀ w ∈ q0.workers, w ∉ (Qs.foldl (classifyStep now) st).avail := by
  intro Qs
  induction Qs with
  | nil => intro st _ q0 hq0; exact absurd hq0 (List.not_mem_nil q0)
  | cons q Qs ih =>
    intro st hnd q0 hq0 hlate hmanned w hw
    rcases List.mem_cons.mp hq0 with h | h
    · subst h
      intro hmem
      exact classify_step_pinned now st q0 hlate hmanned hnd w hw
        (classify_fold_avail_sub now Qs (classifyStep now st q0) hmem)
    · exact ih (classifyStep now st q) (classify_step_avail_nodup now st q hnd)
        q0 h hlate hmanned w hw

/-- attachMany preserves the models of the queues. -/
theorem attachMany_map_model {τ : Type} (moves : List (Nat × String)) :
    ∀ qs : List (WQueue τ),
      (attachMany qs moves).map WQueue.model = qs.map WQueue.model := by
  induction moves with
  | nil => intro qs; rfl
  | cons p moves ih =>
    intro qs
    calc (attachMany qs (p :: moves)).map WQueue.model
        = (attachMany (attach qs p.1 p.2) moves).map WQueue.model := rfl
      _ = (attach qs p.1 p.2).map WQueue.model := ih _
      _ = qs.map WQueue.model := attach_map_model qs p.1 p.2

/-- The free-worker loop is a sequence of rebinds of free workers; it only
shrinks the available pool (keeping it duplicate-free) and only drops late
queues from the end of the late list. -/
theorem assignFree_spec {τ : Type} :
    ∀ (free : List Nat) (queues : List (WQueue τ)) (late : List (τ × String))
      (workable : List (τ × Nat × String)) (avail : List Nat),
      ∃ moves : List (Nat × String),
        (assignFree queues free late workable avail).1 = attachMany queues moves ∧
        (∀ p ∈ moves, p.1 ∈ free) ∧
        (assignFree queues free late workable avail).2.2 ⊆ avail ∧
        (avail.Nodup → (assignFree queues free late workable avail).2.2.Nodup) ∧
        (assignFree queues free late workable avail).2.1 <+: late := by
  intro free
  induction free with
  | nil =>
    intro queues late workable avail
    exact ⟨[], rfl, by simp, fun x hx => hx, fun h => h, List.prefix_refl late⟩
  | cons w ws ih =>
    intro queues late workable avail
    unfold assignFree
    rcases hlast : late.getLast? with _ | ⟨l0, m0⟩
    · rcases hlast2 : workable.getLast? with _ | ⟨l1, n1, m1⟩
      · rcases ih queues late workable avail with ⟨moves, h1, h2, h3, h4, h5⟩
        exact ⟨moves, h1, fun p hp => List.mem_cons_of_mem _ (h2 p hp), h3, h4, h5⟩
      · rcases ih (attach queues w m1) late workable.dropLast (avail.erase w) with
          ⟨moves, h1, h2, h3, h4, h5⟩
        refine ⟨(w, m1) :: moves, h1, ?_, ?_, ?_, h5⟩
        · intro p hp
          rcases List.mem_cons.mp hp with h | h
          · rw [h]; exact List.mem_cons_self _ _
          · exact List.mem_cons_of_mem _ (h2 p h)
        · exact fun x hx => List.erase_subset _ _ (h3 hx)
        · exact fun h => h4 (h.erase w)
    · rcases ih (attach queues w m0) late.dropLast workable (avail.erase w) with
        ⟨moves, h1, h2, h3, h4, h5⟩
      refine ⟨(w, m0) :: moves, h1, ?_, ?_, ?_,
        h5.trans (List.dropLast_prefix late)⟩
      · intro p hp
        rcases List.mem_cons.mp hp with h | h
        · rw [h]; exact List.mem_cons_self _ _
        · exact List.mem_cons_of_mem _ (h2 p h)
      · exact fun x hx => List.erase_subset _ _ (h3 hx)
      · exact fun h => h4 (h.erase w)

/-- The final pulling loop is a sequence of rebinds of available workers. -/
theorem pullWorkers_spec {τ : Type} :
    ∀ (late : List (τ × String)) (queues : List (WQueue τ)) (avail : List Nat),
      ∃ moves : List (Nat × String),
        pullWorkers queues late avail = attachMany queues moves ∧
        ∀ p ∈ moves, p.1 ∈ avail := by
  intro late
  induction late with
  | nil => intro queues avail; exact ⟨[], rfl, by simp⟩
  | cons p rest ih =>
    intro queues avail
    rcases avail with _ | ⟨w, ws⟩
    · rcases ih queues [] with ⟨moves, h1, h2⟩
      refine ⟨moves, ?_, fun p hp => absurd (h2 p hp) (List.not_mem_nil _)⟩
      rcases p with ⟨l, m⟩
      exact h1
    · rcases p with ⟨l, m⟩
      rcases ih (attach queues w m) ws with ⟨moves, h1, h2⟩
      refine ⟨(w, m) :: moves, h1, ?_⟩
      intro p hp
      rcases List.mem_cons.mp hp with h | h
      · rw [h]; exact List.mem_cons_self _ _
      · exact List.mem_cons_of_mem _ (h2 p h)

/-- Attaching a worker to a model present among the queues makes it a
member of that model's worker list. -/
theorem mem_workersOfModel_attach {τ : Type} (qs : List (WQueue τ)) (w : Nat)
    (m : String) (hm : m ∈ qs.map WQueue.model) :
    w ∈ workersOfModel (attach qs w m) m := by
  induction qs with
  | nil => exact absurd hm (by simp)
  | cons q qs ih =>
    unfold workersOfModel
    unfold attach
    rw [List.map_cons]
    by_cases hq : q.model = m
    · rw [if_pos hq, List.find?_cons_of_pos _ (by simp [hq])]
      simp
    · rw [if_neg hq, List.find?_cons_of_neg _ (by simp [hq])]
      have hm' : m ∈ qs.map WQueue.model := by
        rw [List.map_cons] at hm
        rcases List.mem_cons.mp hm with h | h
        · exact absurd h.symm hq
        · exact h
      exact ih hm'

/-- Rebinding a different worker never removes the observed worker from a
model's worker list. -/
theorem workersOfModel_attach_other {τ : Type} (qs : List (WQueue τ))
    (w' : Nat) (m' : String) (w : Nat) (m : String) (hww : w ≠ w')
    (h : w ∈ workersOfModel qs m) : w ∈ workersOfModel (attach qs w' m') m := by
  induction qs with
  | nil => exact absurd h (by simp [workersOfModel])
  | cons q qs ih =>
    unfold workersOfModel at h ⊢
    unfold attach
    rw [List.map_cons]
    by_cases hq : q.model = m
    · rw [List.find?_cons_of_pos _ (by simp [hq])] at h
      have hw : w ∈ q.workers := by simpa using h
      by_cases hq' : q.model = m'
      · rw [if_pos hq', List.find?_cons_of_pos _ (by simp [hq])]
        simp only [Option.map_some', Option.getD_some]
        exact List.mem_append_left _ ((List.mem_erase_of_ne hww).mpr hw)
      · rw [if_neg hq', List.find?_cons_of_pos _ (by simp [hq])]
        simp only [Option.map_some', Option.getD_some]
        exact (List.mem_erase_of_ne hww).mpr hw
    · rw [List.find?_cons_of_neg _ (by simp [hq])] at h
      by_cases hq' : q.model = m'
      · rw [if_pos hq', List.find?_cons_of_neg _ (by simp [hq])]
        exact ih h
      · rw [if_neg hq', List.find?_cons_of_neg _ (by simp [hq])]
        exact ih h

/-- A sequence of rebinds of other workers never removes the observed
worker from a model's worker list. -/
theorem workersOfModel_attachMany_other {τ : Type} (moves : List (Nat × String))
    (w : Nat) (m : String) :
    ∀ qs : List (WQueue τ), (∀ p ∈ moves, w ≠ p.1) →
      w ∈ workersOfModel qs m → w ∈ workersOfModel (attachMany qs moves) m := by
  induction moves with
  | nil => intro qs _ h; exact h
  | cons p moves ih =>
    intro qs hmov h
    exact ih (attach qs p.1 p.2) (fun p hp => hmov p (List.mem_cons_of_mem _ hp))
      (workersOfModel_attach_other qs p.1 p.2 w m (hmov p (List.mem_cons_self _ _)) h)

/-- Rebind sequences compose. -/
theorem attachMany_append {τ : Type} (qs : List (WQueue τ))
    (m1 m2 : List (Nat × String)) :
    attachMany qs (m1 ++ m2) = attachMany (attachMany qs m1) m2 :=
  List.foldl_append _ _ _ _

/-- A late queue holds at least one item. -/
theorem late_queue_nonempty {τ : Type} [LinearOrderedRing τ] (now : τ)
    (q0 : WQueue τ) (hlate : now - oldest_work_item q0.items now > 30) :
    q0.items ≠ [] := by
  intro hnil
  rw [hnil] at hlate
  simp only [oldest_work_item, List.headD_nil, sub_self] at hlate
  have h30 : (0:τ) ≤ 30 := by positivity
  exact absurd hlate (not_lt.mpr h30)

/-- Claim C3: in a scheduling pass, every worker bound to a manned-late
queue (head latency above the soft deadline, at least one bound worker)
stays bound to that queue: after the pass it is still in that model's
worker list and in no other queue's worker list. -/
theorem manned_late_workers_not_rebound {τ : Type} [LinearOrderedRing τ]
    (W : List Nat) (Q : List (WQueue τ)) (now : τ) (q0 : WQueue τ)
    (hW : W.Nodup)
    (hdisj : (Q.flatMap (fun q => q.workers)).Nodup)
    (hmodels : (Q.map WQueue.model).Nodup)
    (hq0 : q0 ∈ Q)
    (hlate : now - oldest_work_item q0.items now > 30)
    (hmanned : q0.workers ≠ [])
    (w : Nat) (hw : w ∈ q0.workers) :
    ∀ q' ∈ schedule_queues W Q now,
      (q'.model = q0.model → w ∈ q'.workers) ∧
      (q'.model ≠ q0.model → w ∉ q'.workers) := by
  have hpin : w ∉ (classifyAll W Q now).avail :=
    classify_fold_pinned now Q ⟨W, [], [], []⟩ hW q0 hq0 hlate hmanned w hw
  have hq0items : q0.items ≠ [] := late_queue_nonempty now q0 hlate
  have hdisQ : ∀ q1 ∈ Q, q1 ≠ q0 → ∀ x ∈ q1.workers, x ∉ q0.workers := by
    intro q1 hq1 hne x hx1 hx0
    have hpair := (List.nodup_flatMap.mp hdisj).2
    have hsym : Symmetric (List.Disjoint on fun q : WQueue τ => q.workers) := by
      intro a b hab
      exact List.Disjoint.symm hab
    exact (hpair.forall hsym) hq1 hq0 hne hx1 hx0
  have hfree : w ∉ (classifyAll W Q now).free := by
    intro hmem
    rcases classify_fold_free_src now Q ⟨W, [], [], []⟩ w hmem with h | ⟨q1, hq1, hq1e, hq1w⟩
    · exact absurd h (List.not_mem_nil w)
    · have hne : q1 ≠ q0 := fun he => hq0items (by rw [← he]; exact hq1e)
      exact hdisQ q1 hq1 hne w hq1w hw
  obtain ⟨moves, hEQ, hmovers⟩ : ∃ moves : List (Nat × String),
      schedule_queues W Q now = attachMany Q moves ∧
      ∀ p ∈ moves, p.1 ∈ (classifyAll W Q now).free ∨ p.1 ∈ (classifyAll W Q now).avail := by
    obtain ⟨m1, e1, f1, asub, andup, lpre⟩ :=
      assignFree_spec (classifyAll W Q now).free Q
        (sortByKey Prod.fst (classifyAll W Q now).late)
        (sortByKey (fun t => t.1 * 5 + (t.2.1 : τ)) (classifyAll W Q now).workable)
        (classifyAll W Q now).avail
    obtain ⟨m2, e2, f2⟩ :=
      pullWorkers_spec
        (assignFree Q (classifyAll W Q now).free
          (sortByKey Prod.fst (classifyAll W Q now).late)
          (sortByKey (fun t => t.1 * 5 + (t.2.1 : τ)) (classifyAll W Q now).workable)
          (classifyAll W Q now).avail).2.1
        (assignFree Q (classifyAll W Q now).free
          (sortByKey Prod.fst (classifyAll W Q now).late)
          (sortByKey (fun t => t.1 * 5 + (t.2.1 : τ)) (classifyAll W Q now).workable)
          (classifyAll W Q now).avail).1
        (sortByKey (workerKey
          (assignFree Q (classifyAll W Q now).free
            (sortByKey Prod.fst (classifyAll W Q now).late)
            (sortByKey (fun t => t.1 * 5 + (t.2.1 : τ)) (classifyAll W Q now).workable)
            (classifyAll W Q now).avail).1 now)
          (assignFree Q (classifyAll W Q now).free
            (sortByKey Prod.fst (classifyAll W Q now).late)
            (sortByKey (fun t => t.1 * 5 + (t.2.1 : τ)) (classifyAll W Q now).workable)
            (classifyAll W Q now).avail).2.2)
    refine ⟨m1 ++ m2, ?_, ?_⟩
    · unfold schedule_queues schedule_mid
      rw [e2, e1, attachMany_append]
    · intro p hp
      rcases List.mem_append.mp hp with h | h
      · exact Or.inl (f1 p h)
      · exact Or.inr (asub ((perm_sortByKey _ _).mem_iff.mp (f2 p h)))
  have hnotw : ∀ p ∈ moves, p.1 ≠ w := by
    intro p hp he
    rcases hmovers p hp with h | h
    · rw [he] at h; exact hfree h
    · rw [he] at h; exact hpin h
  have hmap := attachMany_pres_contains w moves Q hnotw
  intro q' hq'
  rw [hEQ] at hq'
  have hfq' : (q'.model, decide (w ∈ q'.workers)) ∈
      (attachMany Q moves).map (fun q => (q.model, decide (w ∈ q.workers))) :=
    List.mem_map_of_mem _ hq'
  rw [hmap] at hfq'
  rcases List.mem_map.mp hfq' with ⟨q, hqQ, hfq⟩
  have hmodel : q.model = q'.model := (Prod.mk.injEq _ _ _ _).mp hfq |>.1
  have hdec : decide (w ∈ q.workers) = decide (w ∈ q'.workers) :=
    (Prod.mk.injEq _ _ _ _).mp hfq |>.2
  have hiff : w ∈ q.workers ↔ w ∈ q'.workers := decide_eq_decide.mp hdec
  constructor
  · intro hm
    have : q = q0 :=
      List.inj_on_of_nodup_map hmodels hqQ hq0 (by rw [hmodel, hm])
    exact hiff.mp (this ▸ hw)
  · intro hm hwq'
    have hne : q ≠ q0 := by
      intro he
      exact hm (by rw [← hmodel, he])
    exact hdisQ q hqQ hne w (hiff.mpr hwq') hw

/-- Concrete instance of manned_late_workers_not_rebound: in the c3
scenario, worker 2 on the manned-late queue mA is not rebound even though
the late queue m3 pulls a worker in the same pass. -/
theorem manned_late_workers_not_rebound_witness :
    ((⟨"m3", [50], [1]⟩ : WQueue Int).model = (⟨"mA", [10], [2]⟩ : WQueue Int).model →
      2 ∈ (⟨"m3", [50], [1]⟩ : WQueue Int).workers) ∧
    ((⟨"m3", [50], [1]⟩ : WQueue Int).model ≠ (⟨"mA", [10], [2]⟩ : WQueue Int).model →
      2 ∉ (⟨"m3", [50], [1]⟩ : WQueue Int).workers) :=
  manned_late_workers_not_rebound [2, 0, 1] c3Queues 100 ⟨"mA", [10], [2]⟩
    (by decide) (by decide) (by decide) (by decide) (by decide) (by decide)
    2 (by decide) ⟨"m3", [50], [1]⟩ (by decide)

/-- Claim C4 counterexample: in the c4 scenario the available workers are 0
(bound queue head 95, the youngest) and 1 (bound queue head 75, older);
the remaining late queue m3 is given worker 1 — the one whose current
queue's head is the oldest, not the youngest. -/
theorem pull_prefers_oldest_not_youngest :
    workersOfModel (schedule_queues [0, 1] c4Queues (100 : Int)) "m3" = [1] ∧
    workerKey c4Queues (100 : Int) 0 = 95 ∧
    workerKey c4Queues (100 : Int) 1 = 75 := by
  refine ⟨?_, ?_, ?_⟩ <;> decide

/-- Claim C4 as amended: when, after the free workers are exhausted, a late
queue remains and the available pool is nonempty, the pass binds to the
first remaining late queue an available worker whose current queue's head
item is the oldest (smallest creation time) over the whole pool. -/
theorem pulled_worker_prefers_oldest_head {τ : Type} [LinearOrderedRing τ]
    (W : List Nat) (Q : List (WQueue τ)) (now : τ)
    (q1 : List (WQueue τ)) (p : τ × String) (rest : List (τ × String))
    (w : Nat) (ws : List Nat)
    (hW : W.Nodup)
    (hmid : schedule_mid W Q now = (q1, p :: rest, w :: ws)) :
    (∀ u ∈ w :: ws, workerKey q1 now w ≤ workerKey q1 now u) ∧
    w ∈ workersOfModel (schedule_queues W Q now) p.2 := by
  obtain ⟨m1, e1, f1, asub, andup, lpre⟩ :=
    assignFree_spec (classifyAll W Q now).free Q
      (sortByKey Prod.fst (classifyAll W Q now).late)
      (sortByKey (fun t => t.1 * 5 + (t.2.1 : τ)) (classifyAll W Q now).workable)
      (classifyAll W Q now).avail
  unfold schedule_mid at hmid
  have hq1 : (assignFree Q (classifyAll W Q now).free
      (sortByKey Prod.fst (classifyAll W Q now).late)
      (sortByKey (fun t => t.1 * 5 + (t.2.1 : τ)) (classifyAll W Q now).workable)
      (classifyAll W Q now).avail).1 = q1 := congrArg Prod.fst hmid
  have hl : (assignFree Q (classifyAll W Q now).free
      (sortByKey Prod.fst (classifyAll W Q now).late)
      (sortByKey (fun t => t.1 * 5 + (t.2.1 : τ)) (classifyAll W Q now).workable)
      (classifyAll W Q now).avail).2.1 = p :: rest :=
    congrArg (fun x => x.2.1) hmid
  have ha : sortByKey (workerKey (assignFree Q (classifyAll W Q now).free
      (sortByKey Prod.fst (classifyAll W Q now).late)
      (sortByKey (fun t => t.1 * 5 + (t.2.1 : τ)) (classifyAll W Q now).workable)
      (classifyAll W Q now).avail).1 now)
      (assignFree Q (classifyAll W Q now).free
        (sortByKey Prod.fst (classifyAll W Q now).late)
        (sortByKey (fun t => t.1 * 5 + (t.2.1 : τ)) (classifyAll W Q now).workable)
        (classifyAll W Q now).avail).2.2 = w :: ws :=
    congrArg (fun x => x.2.2) hmid
  rw [hq1] at ha
  -- duplicate-freeness of the sorted pool
  have hnd0 : (classifyAll W Q now).avail.Nodup :=
    classify_fold_avail_nodup now Q ⟨W, [], [], []⟩ hW
  have hndpool : (w :: ws).Nodup := by
    rw [← ha]
    exact ((perm_sortByKey _ _).nodup_iff).mpr (andup hnd0)
  have hwws : w ∉ ws := (List.nodup_cons.mp hndpool).1
  constructor
  · intro u hu
    have hu2 := (perm_sortByKey (workerKey q1 now) _).mem_iff.mp (by rw [ha]; exact hu)
    exact sortByKey_head_min (workerKey q1 now) _ w ws ha u hu2
  · -- the model of the late entry is among the models of q1
    have hpmem : p ∈ sortByKey Prod.fst (classifyAll W Q now).late := by
      have : p ∈ p :: rest := List.mem_cons_self _ _
      rw [← hl] at this
      exact lpre.subset this
    have hpl : p ∈ (classifyAll W Q now).late :=
      (perm_sortByKey Prod.fst _).mem_iff.mp hpmem
    rcases classify_fold_late_src now Q ⟨W, [], [], []⟩ p hpl with h | ⟨q, hqQ, hqm⟩
    · exact absurd h (List.not_mem_nil p)
    · have hmm : p.2 ∈ Q.map WQueue.model := by
        rw [hqm]
        exact List.mem_map_of_mem _ hqQ
      have hq1m : q1 = attachMany Q m1 := hq1.symm.trans e1
      have hmm1 : p.2 ∈ q1.map WQueue.model := by
        rw [hq1m, attachMany_map_model m1 Q]
        exact hmm
      -- the pass attaches w to p.2 and then only rebinds members of ws
      have hsched : schedule_queues W Q now = pullWorkers q1 (p :: rest) (w :: ws) := by
        simp only [schedule_queues, schedule_mid]
        rw [hq1, hl, ha]
      rcases p with ⟨l0, m0⟩
      have hstep : pullWorkers q1 ((l0, m0) :: rest) (w :: ws) =
          pullWorkers (attach q1 w m0) rest ws := rfl
      obtain ⟨m2, e2, f2⟩ := pullWorkers_spec rest (attach q1 w m0) ws
      rw [hsched, hstep, e2]
      exact workersOfModel_attachMany_other m2 w m0 (attach q1 w m0)
        (fun p hp he => hwws (he ▸ f2 p hp))
        (mem_workersOfModel_attach q1 w m0 hmm1)

/-- Concrete instance of pulled_worker_prefers_oldest_head on the c4
scenario: worker 1 (queue head 75, the minimum of the pool keys 95 and 75)
is pulled to serve m3. -/
theorem pulled_worker_prefers_oldest_head_witness :
    (∀ u ∈ [1, 0], workerKey c4Queues (100 : Int) 1 ≤ workerKey c4Queues (100 : Int) u) ∧
    1 ∈ workersOfModel (schedule_queues [0, 1] c4Queues (100 : Int)) ((50 : Int), "m3").2 :=
  pulled_worker_prefers_oldest_head [0, 1] c4Queues 100 c4Queues ((50 : Int), "m3") [] 1 [0]
    (by decide) (by decide)

/-!  Claims C1 (counterexample) and C9: codec failure behaviour -/

/-- Claim C9: a missing mandatory line does raise ValueError, which the
again command catches — but a mandatory line that fails its regex raises
AttributeError (match is None, None.group), which again's except clause
(ValueError, KeyError, IndexError) does not catch. -/
theorem parse_malformed_error_kinds :
    parse_message_str c1Env "hello\nworld\nfoo\nbar" = .error .attributeError ∧
    againHandles .attributeError = false ∧
    parse_message_str c1Env "short" = .error .valueError ∧
    againHandles .valueError = true :=
  ⟨rfl, rfl, rfl, rfl⟩

/-- Claim C1 counterexample: for the valid dict c1Params, whose seed is the
declared default −1, the rendered ack message writes "seed -1", which the
seed group of the parsing regex (digits only) cannot match: parsing the
rendered message raises AttributeError instead of returning
validate_params(c1Params) — while validate_params accepts the dict and
keeps the seed value −1. -/
theorem roundtrip_fails_at_seed_neg_one :
    make_message_str "a test prompt" "a test negative prompt" 4 none c1Params = some c1Msg ∧
    parse_message_str c1Env c1Msg = .error .attributeError ∧
    (validate_params c1Env c1Params).map (fun r => r .seed) = some (some (.num (-1))) :=
  ⟨rfl, rfl, by decide⟩

/-!  Claim C1, amended: digit and formatting lemmas -/

/-- The digit characters are digits. -/
theorem digitChar_isDigit (n : Nat) (h : n < 10) : (digitChar n).isDigit = true := by
  interval_cases n <;> decide

/-- A digit character is not a comma, a newline, a dot or an x. -/
theorem digitChar_ne (n : Nat) :
    digitChar n ≠ ',' ∧ digitChar n ≠ '\n' ∧ digitChar n ≠ '.' ∧ digitChar n ≠ 'x' := by
  unfold digitChar
  split <;> exact ⟨by decide, by decide, by decide, by decide⟩

/-- The value of a digit character. -/
theorem digitVal_digitChar (n : Nat) (h : n < 10) : digitVal (digitChar n) = n := by
  interval_cases n <;> decide

/-- digitsVal over a terminal digit. -/
theorem digitsVal_append_singleton (xs : List Char) (c : Char) :
    digitsVal (xs ++ [c]) = 10 * digitsVal xs + digitVal c := by
  unfold digitsVal
  rw [List.foldl_append]
  rfl

/-- With sufficient fuel, the digit expansion is nonempty, consists of
digits, and evaluates back to its value. -/
theorem natDigitsAux_spec (fuel : Nat) :
    ∀ n : Nat, n < fuel →
      natDigitsAux fuel n ≠ [] ∧ (∀ c ∈ natDigitsAux fuel n, c.isDigit = true) ∧
      digitsVal (natDigitsAux fuel n) = n := by
  induction fuel with
  | zero => intro n h; exact absurd h (Nat.not_lt_zero n)
  | succ fuel ih =>
    intro n h
    unfold natDigitsAux
    by_cases h10 : n < 10
    · rw [if_pos h10]
      refine ⟨by simp, ?_, ?_⟩
      · intro c hc
        rw [List.mem_singleton.mp hc]
        exact digitChar_isDigit n h10
      · show digitsVal ([] ++ [digitChar n]) = n
        rw [digitsVal_append_singleton]
        simp [digitsVal, digitVal_digitChar n h10]
    · rw [if_neg h10]
      have hdiv : n / 10 < fuel := by omega
      obtain ⟨h1, h2, h3⟩ := ih (n / 10) hdiv
      refine ⟨by simp, ?_, ?_⟩
      · intro c hc
        rcases List.mem_append.mp hc with hc | hc
        · exact h2 c hc
        · rw [List.mem_singleton.mp hc]
          exact digitChar_isDigit _ (Nat.mod_lt n (by norm_num))
      · rw [digitsVal_append_singleton, h3, digitVal_digitChar _ (Nat.mod_lt n (by norm_num))]
        omega

/-- The decimal expansion of a natural number is nonempty. -/
theorem natDigits_ne_nil (n : Nat) : natDigits n ≠ [] :=
  (natDigitsAux_spec (n + 1) n (Nat.lt_succ_self n)).1

/-- The decimal expansion consists of digits. -/
theorem natDigits_digits (n : Nat) : ∀ c ∈ natDigits n, c.isDigit = true :=
  (natDigitsAux_spec (n + 1) n (Nat.lt_succ_self n)).2.1

/-- int() inverts the decimal expansion. -/
theorem digitsVal_natDigits (n : Nat) : digitsVal (natDigits n) = n :=
  (natDigitsAux_spec (n + 1) n (Nat.lt_succ_self n)).2.2

/-- Python int() on a rendered natural number. -/
theorem pyIntOfDigits_natDigits (n : Nat) : pyIntOfDigits (natDigits n) = some ((n : Int)) := by
  unfold pyIntOfDigits
  rw [if_pos ⟨natDigits_ne_nil n, List.all_eq_true.mpr (fun c hc => natDigits_digits n c hc)⟩,
    digitsVal_natDigits]

/-- The two-digit rendering of a value below 100. -/
theorem pad2_eq (k : Nat) (h : k < 100) :
    pad2 k = [digitChar (k / 10), digitChar (k % 10)] := by
  unfold pad2
  by_cases h10 : k < 10
  · rw [if_pos h10]
    have : k / 10 = 0 := by omega
    have hk : k % 10 = k := by omega
    rw [this, hk]
    rfl
  · rw [if_neg h10]
    unfold natDigits
    unfold natDigitsAux
    rw [if_neg h10]
    have hlt : k / 10 < 10 := by omega
    rcases Nat.exists_eq_succ_of_ne_zero (show k ≠ 0 by omega) with ⟨k', hk'⟩
    rw [hk']
    show natDigitsAux (k' + 1) ((k' + 1) / 10) ++ [digitChar ((k' + 1) % 10)] = _
    rcases Nat.exists_eq_succ_of_ne_zero (show k' ≠ 0 by omega) with ⟨k'', hk''⟩
    rw [hk'']
    unfold natDigitsAux
    rw [if_pos (by omega : (k'' + 1 + 1) / 10 < 10)]
    rfl

/-- The value of the two-digit rendering. -/
theorem digitsVal_pad2 (k : Nat) (h : k < 100) : digitsVal (pad2 k) = k := by
  rw [pad2_eq k h]
  show digitsVal ([digitChar (k / 10)] ++ [digitChar (k % 10)]) = k
  rw [digitsVal_append_singleton]
  have : digitsVal [digitChar (k / 10)] = k / 10 := by
    show digitsVal ([] ++ [digitChar (k / 10)]) = k / 10
    rw [digitsVal_append_singleton]
    simp [digitsVal, digitVal_digitChar _ (by omega : k / 10 < 10)]
  rw [this, digitVal_digitChar _ (by omega : k % 10 < 10)]
  omega

/-- The two-digit rendering consists of digits. -/
theorem pad2_digits (k : Nat) (h : k < 100) : ∀ c ∈ pad2 k, c.isDigit = true := by
  rw [pad2_eq k h]
  intro c hc
  rcases List.mem_cons.mp hc with h1 | h1
  · rw [h1]; exact digitChar_isDigit _ (by omega)
  · rw [List.mem_singleton.mp h1]; exact digitChar_isDigit _ (by omega)

/-- Rounding to hundredths is exact on exact hundredths. -/
theorem round2_exact (q : ℚ) (k : Int) (h : q * 100 = k) : round2 q = k := by
  have hdpos : (0 : Int) < (q.den : Int) := by exact_mod_cast q.pos
  have hd0 : (q.den : Int) ≠ 0 := ne_of_gt hdpos
  have h2 : (q.num : ℚ) * 100 = (k : ℚ) * (q.den : ℚ) := by
    rw [← Rat.num_div_den q] at h
    have hden : ((q.den : ℚ)) ≠ 0 := by
      exact_mod_cast Nat.pos_iff_ne_zero.mp q.pos
    field_simp at h
    linarith
  have h3 : 100 * q.num = k * (q.den : Int) := by
    have : (q.num : ℚ) * 100 = ((k * (q.den : Int) : Int) : ℚ) := by push_cast; linarith
    have h4 : ((100 * q.num : Int) : ℚ) = ((k * (q.den : Int) : Int) : ℚ) := by push_cast; push_cast at this; linarith
    exact_mod_cast h4
  unfold round2
  simp only [h3]
  rw [Int.mul_emod_left, Int.mul_ediv_cancel _ hd0]
  rw [if_neg]
  push_neg
  constructor
  · omega
  · intro h5
    omega

/-- Claim C8: the worker's decode expression applies base64 to the part of
the image string before the first comma, so a string carrying a data-URL
prefix fails to decode (its prefix is not valid base64 of length 0 mod 4),
instead of decoding the payload after the comma as the spec requires. -/
theorem worker_image_decode_takes_prefix :
    workerImageDecode "data:image/png;base64,QUJD" = none ∧
    b64decode "QUJD" = some [65, 66, 67] ∧
    workerImageDecode "QUJD" = some [65, 66, 67] := by
  refine ⟨?_, ?_, ?_⟩ <;> decide


/-- "%.2f" of an exact number of hundredths renders those hundredths. -/
theorem fmt2_centi (k : Nat) : fmt2 ((k : ℚ) / 100) = fmt2Nat k := by
  have h : ((k : ℚ) / 100) * 100 = ((k : Int) : ℚ) := by
    push_cast
    field_simp
  have hr : round2 ((k : ℚ) / 100) = (k : Int) := round2_exact _ _ h
  unfold fmt2
  rw [if_neg (not_lt.mpr (by positivity : (0 : ℚ) ≤ (k : ℚ) / 100)), hr, Int.toNat_natCast]

/-- takeWhile keeps a fully satisfying list. -/
theorem takeWhile_all {p : Char → Bool} :
    ∀ xs : List Char, (∀ c ∈ xs, p c = true) → xs.takeWhile p = xs
  | [], _ => rfl
  | x :: xs, h => by
    simp only [List.takeWhile_cons, h x (List.mem_cons_self x xs), if_true]
    rw [takeWhile_all xs (fun c hc => h c (List.mem_cons_of_mem x hc))]

/-- takeWhile stops exactly at the first failing character after a
satisfying prefix. -/
theorem takeWhile_append_stop {p : Char → Bool} (y : Char) (ys : List Char)
    (hy : p y = false) :
    ∀ xs : List Char, (∀ c ∈ xs, p c = true) → (xs ++ y :: ys).takeWhile p = xs
  | [], _ => by simp [List.takeWhile_cons, hy]
  | x :: xs, h => by
    simp only [List.cons_append, List.takeWhile_cons,
      h x (List.mem_cons_self x xs), if_true]
    rw [takeWhile_append_stop y ys hy xs (fun c hc => h c (List.mem_cons_of_mem x hc))]

/-- Python float() inverts "%.2f" on hundredths. -/
theorem pyFloat_fmt2Nat (k : Nat) : pyFloatOfChars (fmt2Nat k) = some ((k : ℚ) / 100) := by
  have hmod : k % 100 < 100 := Nat.mod_lt k (by norm_num)
  have htw : (fmt2Nat k).takeWhile Char.isDigit = natDigits (k / 100) := by
    rw [show fmt2Nat k = natDigits (k / 100) ++ '.' :: pad2 (k % 100) from rfl]
    exact takeWhile_append_stop '.' _ (by decide) _ (natDigits_digits _)
  have hdrop : (fmt2Nat k).drop (natDigits (k / 100)).length = '.' :: pad2 (k % 100) := by
    rw [show fmt2Nat k = natDigits (k / 100) ++ '.' :: pad2 (k % 100) from rfl]
    exact List.drop_left _ _
  simp only [pyFloatOfChars, htw, hdrop]
  rw [if_pos ⟨by simp [pad2_eq _ hmod], List.all_eq_true.mpr (pad2_digits _ hmod)⟩]
  rw [digitsVal_natDigits, digitsVal_pad2 _ hmod]
  rw [show (pad2 (k % 100)).length = 2 by rw [pad2_eq _ hmod]; rfl]
  have hdm : (100 : ℚ) * ((k / 100 : ℕ) : ℚ) + ((k % 100 : ℕ) : ℚ) = (k : ℚ) := by
    exact_mod_cast congrArg (fun m : ℕ => (m : ℚ)) (Nat.div_add_mod k 100)
  have h100 : ((10 : ℚ)) ^ 2 = 100 := by norm_num
  rw [h100]
  rw [show ((k : ℚ)) = (100 : ℚ) * ((k / 100 : ℕ) : ℚ) + ((k % 100 : ℕ) : ℚ) from hdm.symm]
  ring_nf

/-- str() of a nat-valued dict entry renders its digits. -/
theorem pvalStr_natCast (n : Nat) : pvalStr (.num ((n : ℚ))) = some (natDigits n) := by
  simp only [pvalStr, Rat.den_natCast, Rat.num_natCast, if_true]
  simp only [intDigits]
  rw [if_neg (not_lt.mpr (Int.natCast_nonneg n)), Int.toNat_natCast]

/-- str() of a nat-valued Python int renders its digits. -/
theorem intDigits_natCast (n : Nat) : intDigits ((n : Nat) : Int) = natDigits n := by
  simp only [intDigits]
  rw [if_neg (not_lt.mpr (Int.natCast_nonneg n)), Int.toNat_natCast]

/-- The scan over candidates of a cons list. -/
theorem firstSome_cons {α β : Type} (f : α → Option β) (a : α) (l : List α) :
    firstSome f (a :: l) =
      match f a with | some b => some b | none => firstSome f l := rfl

/-- The scan over appended candidate lists. -/
theorem firstSome_append {α β : Type} (f : α → Option β) :
    ∀ l₁ l₂ : List α, firstSome f (l₁ ++ l₂) =
      match firstSome f l₁ with | some b => some b | none => firstSome f l₂
  | [], l₂ => rfl
  | a :: l, l₂ => by
    rw [List.cons_append, firstSome_cons, firstSome_cons]
    cases h : f a with
    | none => exact firstSome_append f l l₂
    | some b => rfl

/-- A scan over all-failing candidates fails. -/
theorem firstSome_eq_none {α β : Type} (f : α → Option β) :
    ∀ l : List α, (∀ x ∈ l, f x = none) → firstSome f l = none
  | [], _ => rfl
  | a :: l, h => by
    rw [firstSome_cons, h a (List.mem_cons_self a l)]
    exact firstSome_eq_none f l (fun x hx => h x (List.mem_cons_of_mem a hx))

/-- An ascending candidate scan whose candidates below K fail and whose
candidate K succeeds returns the success at K. -/
theorem firstSome_asc {β : Type} (f : Nat → Option β) (K n : Nat) (v : β)
    (h1 : 1 ≤ K) (h2 : K ≤ n)
    (hfail : ∀ j, 1 ≤ j → j < K → f j = none) (hv : f K = some v) :
    firstSome f (List.range' 1 n) = some v := by
  have hsplit : List.range' 1 n = List.range' 1 (K - 1) ++ List.range' K (n - (K - 1)) := by
    have h := List.range'_append 1 (K - 1) (n - (K - 1)) 1
    rw [show 1 + 1 * (K - 1) = K by omega] at h
    rw [show n - (K - 1) + (K - 1) = n by omega] at h
    exact h.symm
  rw [hsplit, firstSome_append]
  rw [firstSome_eq_none f _ (fun x hx => by
    rcases List.mem_range'_1.mp hx with ⟨ha, hb⟩
    exact hfail x ha (by omega))]
  have hn : n - (K - 1) = (n - K) + 1 := by omega
  rw [hn, List.range'_succ, firstSome_cons, hv]

/-- A descending candidate scan whose largest candidate succeeds returns
that success. -/
theorem firstSome_desc {β : Type} (f : Nat → Option β) (n : Nat) (v : β)
    (hn : 1 ≤ n) (hv : f n = some v) :
    firstSome f ((List.range' 1 n).reverse) = some v := by
  obtain ⟨m, rfl⟩ : ∃ m, n = m + 1 := ⟨n - 1, by omega⟩
  rw [List.range'_concat, List.reverse_append, List.reverse_singleton,
    List.singleton_append, firstSome_cons]
  rw [show 1 + 1 * m = m + 1 by omega, hv]

/-- A descending candidate scan from n down to zero whose candidate n
succeeds returns that success. -/
theorem firstSome_desc0 {β : Type} (f : Nat → Option β) (n : Nat) (v : β)
    (hv : f n = some v) :
    firstSome f ((List.range' 0 (n + 1)).reverse) = some v := by
  rw [List.range'_concat, List.reverse_append, List.reverse_singleton,
    List.singleton_append, firstSome_cons]
  rw [show 0 + 1 * n = n by omega, hv]

/-- splitNL never returns an empty list of parts. -/
theorem splitNL_ne_nil : ∀ cs : List Char, splitNL cs ≠ []
  | [] => by simp [splitNL]
  | c :: rest => by
    obtain ⟨r, rs, hr⟩ := List.exists_cons_of_ne_nil (splitNL_ne_nil rest)
    rw [splitNL, hr]
    dsimp only
    by_cases hc : c = '\r'
    · rw [if_pos hc]
      split <;> simp
    · rw [if_neg hc]
      by_cases hb : isLineBreak c = true
      · rw [if_pos hb]; simp
      · rw [if_neg hb]; simp

/-- splitNL splits off a newline-terminated boundary-free first line. -/
theorem splitNL_append : ∀ l : List Char, (∀ c ∈ l, isLineBreak c = false) →
    ∀ rest : List Char, splitNL (l ++ '\n' :: rest) = l :: splitNL rest
  | [], _, rest => by
    obtain ⟨r, rs, hr⟩ := List.exists_cons_of_ne_nil (splitNL_ne_nil rest)
    show splitNL ('\n' :: rest) = [] :: splitNL rest
    rw [splitNL, hr]
    simp [isLineBreak]
  | c :: l, h, rest => by
    have hc : isLineBreak c = false := h c (List.mem_cons_self c l)
    have hcr : c ≠ '\r' := fun he => by
      rw [he] at hc
      exact absurd hc (by decide)
    have ih := splitNL_append l (fun x hx => h x (List.mem_cons_of_mem c hx)) rest
    obtain ⟨r, rs, hr⟩ := List.exists_cons_of_ne_nil (splitNL_ne_nil rest)
    rw [hr] at ih
    show splitNL (c :: (l ++ '\n' :: rest)) = (c :: l) :: splitNL rest
    rw [splitNL, ih, hr]
    simp [hcr, hc]

/-- splitNL of a text free of line boundaries is that single line. -/
theorem splitNL_no_nl : ∀ l : List Char, (∀ c ∈ l, isLineBreak c = false) →
    splitNL l = [l]
  | [], _ => rfl
  | c :: l, h => by
    have hc : isLineBreak c = false := h c (List.mem_cons_self c l)
    have hcr : c ≠ '\r' := fun he => by
      rw [he] at hc
      exact absurd hc (by decide)
    have ih := splitNL_no_nl l (fun x hx => h x (List.mem_cons_of_mem c hx))
    rw [splitNL, ih]
    simp [hcr, hc]

/-- A digit character is not a line boundary. -/
theorem break_ne_digit (c : Char) (hc : c.isDigit = true) :
    isLineBreak c = false := by
  by_contra hcon
  rw [Bool.not_eq_false] at hcon
  unfold isLineBreak at hcon
  simp only [Bool.or_eq_true, decide_eq_true_eq] at hcon
  rcases hcon with ((((((((h | h) | h) | h) | h) | h) | h) | h) | h) | h <;>
    subst h <;> exact absurd hc (by decide)

/-- A non-digit character is not among rendered digits. -/
theorem not_mem_natDigits {c : Char} (hc : c.isDigit = false) (n : Nat) :
    c ∉ natDigits n := fun h => by
  have hd := natDigits_digits n c h
  rw [hd] at hc
  exact Bool.noConfusion hc

/-- No character of a "%.2f" rendering is a line boundary. -/
theorem fmt2Nat_no_break (k : Nat) : ∀ c ∈ fmt2Nat k, isLineBreak c = false := by
  intro c h
  rw [show fmt2Nat k = natDigits (k / 100) ++ '.' :: pad2 (k % 100) from rfl] at h
  rcases List.mem_append.mp h with h | h
  · exact break_ne_digit c (natDigits_digits _ c h)
  · rcases List.mem_cons.mp h with h | h
    · subst h; decide
    · exact break_ne_digit c (pad2_digits (k % 100) (Nat.mod_lt k (by norm_num)) c h)

/-- A list is a prefix of itself followed by anything. -/
theorem isPrefixOf_append (s rest : List Char) : s.isPrefixOf (s ++ rest) = true := by
  induction s with
  | nil => simp [List.isPrefixOf]
  | cons a s ih => simp [List.cons_append, List.isPrefixOf_cons₂, ih]

/-- A literal pattern consumes its own text. -/
theorem mtch_lit (s rest : List Char) (ps : List Pat) :
    mtch (.lit s :: ps) (s ++ rest) = mtch ps rest := by
  have hp : s.isPrefixOf (s ++ rest) = true := isPrefixOf_append s rest
  simp only [mtch, hp, if_true, List.drop_left]

/-- A literal pattern whose first character mismatches fails. -/
theorem mtch_lit_ne (a b : Char) (s cs : List Char) (ps : List Pat)
    (h : (a == b) = false) :
    mtch (.lit (a :: s) :: ps) (b :: cs) = none := by
  have hp : (a :: s).isPrefixOf (b :: cs) = false := by
    rw [List.isPrefixOf_cons₂, h, Bool.false_and]
  simp [mtch, hp]

/-- A final greedy any-group captures the whole (nonempty) remaining text. -/
theorem mtch_anyG_last (cs : List Char) (h : cs ≠ []) :
    mtch [.anyG] cs = some [cs] := by
  rw [mtch, descList]
  refine firstSome_desc _ _ _ (List.length_pos.mpr h) ?_
  rw [List.drop_length]
  simp [mtch, List.take_length]

/-- A lazy any-group over a comma-free field captures exactly the field when
the following comma-led pattern consumes the rest. -/
theorem mtch_anyL_comma (field rest s' : List Char) (ps : List Pat)
    (gs : List (List Char))
    (hne : field ≠ []) (hcomma : ',' ∉ field)
    (hcont : mtch (.lit (',' :: s') :: ps) rest = some gs) :
    mtch (.anyL :: .lit (',' :: s') :: ps) (field ++ rest) = some (field :: gs) := by
  rw [mtch, ascList]
  refine firstSome_asc _ field.length _ _ (List.length_pos.mpr hne) ?_ ?_ ?_
  · rw [List.length_append]; omega
  · intro j h1 hj
    have hdrop : (field ++ rest).drop j = field.drop j ++ rest :=
      List.drop_append_of_le_length (by omega)
    obtain ⟨c, t, hct⟩ := List.exists_cons_of_ne_nil
      (show field.drop j ≠ [] by
        intro hnil; rw [List.drop_eq_nil_iff] at hnil; omega)
    have hcmem : c ∈ field :=
      List.mem_of_mem_drop (by rw [hct]; exact List.mem_cons_self c t)
    have hcne : (',' == c) = false := by
      rw [beq_eq_false_iff_ne]
      intro hcc
      exact hcomma (hcc ▸ hcmem)
    rw [hdrop, hct, List.cons_append, mtch_lit_ne ',' c s' (t ++ rest) ps hcne]
    rfl
  · dsimp only
    rw [List.drop_left, List.take_left, hcont]
    rfl

/-- A lazy digit-group over rendered digits captures exactly the digits when
the following non-digit-led pattern consumes the rest. -/
theorem mtch_digitsL (ds : List Char) (c : Char) (rest' s' : List Char)
    (ps : List Pat) (gs : List (List Char))
    (hne : ds ≠ []) (hds : ∀ x ∈ ds, x.isDigit = true) (hc : c.isDigit = false)
    (hcont : mtch (.lit (c :: s') :: ps) (c :: rest') = some gs) :
    mtch (.digitsL :: .lit (c :: s') :: ps) (ds ++ c :: rest') = some (ds :: gs) := by
  have htw : (ds ++ c :: rest').takeWhile Char.isDigit = ds :=
    takeWhile_append_stop c rest' hc ds hds
  rw [mtch, ascList, htw]
  refine firstSome_asc _ ds.length _ _ (List.length_pos.mpr hne) le_rfl ?_ ?_
  · intro j h1 hj
    have hdrop : (ds ++ c :: rest').drop j = ds.drop j ++ c :: rest' :=
      List.drop_append_of_le_length (by omega)
    obtain ⟨d, t, hdt⟩ := List.exists_cons_of_ne_nil
      (show ds.drop j ≠ [] by
        intro hnil; rw [List.drop_eq_nil_iff] at hnil; omega)
    have hdmem : d ∈ ds :=
      List.mem_of_mem_drop (by rw [hdt]; exact List.mem_cons_self d t)
    have hcd : (c == d) = false := by
      rw [beq_eq_false_iff_ne]
      intro he
      rw [he, hds d hdmem] at hc
      exact Bool.noConfusion hc
    rw [hdrop, hdt, List.cons_append, mtch_lit_ne c d s' (t ++ c :: rest') ps hcd]
    rfl
  · dsimp only
    rw [List.drop_left, List.take_left, hcont]
    rfl

/-- A greedy digit-group over rendered digits captures exactly the digits
when the following non-digit-led pattern consumes the rest. -/
theorem mtch_digitsG_lit (ds : List Char) (c : Char) (rest' s' : List Char)
    (ps : List Pat) (gs : List (List Char))
    (hne : ds ≠ []) (hds : ∀ x ∈ ds, x.isDigit = true) (hc : c.isDigit = false)
    (hcont : mtch (.lit (c :: s') :: ps) (c :: rest') = some gs) :
    mtch (.digitsG :: .lit (c :: s') :: ps) (ds ++ c :: rest') = some (ds :: gs) := by
  have htw : (ds ++ c :: rest').takeWhile Char.isDigit = ds :=
    takeWhile_append_stop c rest' hc ds hds
  rw [mtch, descList, htw]
  refine firstSome_desc _ _ _ (List.length_pos.mpr hne) ?_
  rw [List.drop_left, List.take_left, hcont]
  rfl

/-- A final greedy digit-group captures a whole rendered digit run. -/
theorem mtch_digitsG_last (ds : List Char) (hne : ds ≠ [])
    (hds : ∀ x ∈ ds, x.isDigit = true) :
    mtch [.digitsG] ds = some [ds] := by
  have htw : ds.takeWhile Char.isDigit = ds := takeWhile_all ds hds
  rw [mtch, descList, htw]
  refine firstSome_desc _ _ _ (List.length_pos.mpr hne) ?_
  rw [List.drop_length]
  simp [mtch, List.take_length]

/-- The cfg-shaped group captures digits, a dot and two digits when the
following pattern consumes the rest. -/
theorem mtch_dec2 (ip : List Char) (d1 d2 : Char) (rest : List Char)
    (ps : List Pat) (gs : List (List Char))
    (hip : ∀ x ∈ ip, x.isDigit = true) (h1 : d1.isDigit = true)
    (h2 : d2.isDigit = true) (hcont : mtch ps rest = some gs) :
    mtch (.dec2 :: ps) (ip ++ '.' :: d1 :: d2 :: rest) =
      some ((ip ++ ['.', d1, d2]) :: gs) := by
  have htw : (ip ++ '.' :: d1 :: d2 :: rest).takeWhile Char.isDigit = ip :=
    takeWhile_append_stop '.' _ (by decide) ip hip
  rw [mtch, descList0, htw]
  refine firstSome_desc0 _ ip.length _ ?_
  dsimp only
  rw [List.drop_left]
  dsimp only
  rw [h1, h2]
  simp only [Bool.and_self, if_true]
  rw [List.take_left, hcont]
  rfl

/-- The first ack line matches its regex, capturing the batch digits and the
prompt. -/
theorem mtch_argPat1_render (bsd pr : List Char)
    (hbs : bsd ≠ []) (hbsd : ∀ c ∈ bsd, c.isDigit = true) (hpr : pr ≠ []) :
    mtch argPat1
      ("Generating ".data ++ (bsd ++ (" images for prompt: ".data ++ pr)))
      = some [bsd, pr] := by
  have h4 : mtch [.anyG] pr = some [pr] := mtch_anyG_last pr hpr
  have h3 : mtch [Pat.lit (' ' :: "images for prompt: ".data), .anyG]
      ((' ' :: "images for prompt: ".data) ++ pr) = some [pr] := by
    rw [mtch_lit]; exact h4
  have h2 : mtch [.digitsG, Pat.lit (' ' :: "images for prompt: ".data), .anyG]
      (bsd ++ ' ' :: ("images for prompt: ".data ++ pr)) = some [bsd, pr] :=
    mtch_digitsG_lit bsd ' ' ("images for prompt: ".data ++ pr)
      "images for prompt: ".data [.anyG] [pr] hbs hbsd (by decide) h3
  exact (mtch_lit "Generating ".data
    (bsd ++ (" images for prompt: ".data ++ pr))
    [.digitsG, Pat.lit " images for prompt: ".data, .anyG]).trans h2

/-- The negative-prompt line matches its regex, capturing the negative
prompt. -/
theorem mtch_argPat2_render (np : List Char) (hnp : np ≠ []) :
    mtch argPat2 ("negative prompt: ".data ++ np) = some [np] :=
  (mtch_lit "negative prompt: ".data np [.anyG]).trans (mtch_anyG_last np hnp)

/-- The model/vae/size line matches its regex, capturing model, vae and the
two size digit runs. -/
theorem mtch_paramPat1_render (model vae wd hd : List Char)
    (hm : model ≠ []) (hmc : ',' ∉ model) (hv : vae ≠ []) (hvc : ',' ∉ vae)
    (hw : wd ≠ []) (hwd : ∀ c ∈ wd, c.isDigit = true)
    (hh : hd ≠ []) (hhd : ∀ c ∈ hd, c.isDigit = true) :
    mtch paramPat1
      ("Using model: ".data ++ (model ++ (", vae: ".data ++ (vae ++
        (", image size: ".data ++ (wd ++ ('x' :: hd)))))))
      = some [model, vae, wd, hd] := by
  have h6 : mtch [.digitsG] hd = some [hd] := mtch_digitsG_last hd hh hhd
  have h5 : mtch [Pat.lit ['x'], .digitsG] (['x'] ++ hd) = some [hd] := by
    rw [mtch_lit]; exact h6
  have h4 : mtch [.digitsL, Pat.lit ['x'], .digitsG] (wd ++ 'x' :: hd)
      = some [wd, hd] :=
    mtch_digitsL wd 'x' hd [] [.digitsG] [hd] hw hwd (by decide) h5
  have h3 : mtch [Pat.lit (',' :: " image size: ".data), .digitsL,
        Pat.lit ['x'], .digitsG]
      ((',' :: " image size: ".data) ++ (wd ++ 'x' :: hd)) = some [wd, hd] := by
    rw [mtch_lit]; exact h4
  have h2 : mtch [.anyL, Pat.lit (',' :: " image size: ".data), .digitsL,
        Pat.lit ['x'], .digitsG]
      (vae ++ ((',' :: " image size: ".data) ++ (wd ++ 'x' :: hd)))
      = some [vae, wd, hd] :=
    mtch_anyL_comma vae _ " image size: ".data _ [wd, hd] hv hvc h3
  have h2l : mtch [Pat.lit (',' :: " vae: ".data), .anyL,
        Pat.lit (',' :: " image size: ".data), .digitsL, Pat.lit ['x'], .digitsG]
      ((',' :: " vae: ".data) ++ (vae ++ ((',' :: " image size: ".data) ++
        (wd ++ 'x' :: hd)))) = some [vae, wd, hd] := by
    rw [mtch_lit]; exact h2
  have h1 : mtch [.anyL, Pat.lit (',' :: " vae: ".data), .anyL,
        Pat.lit (',' :: " image size: ".data), .digitsL, Pat.lit ['x'], .digitsG]
      (model ++ ((',' :: " vae: ".data) ++ (vae ++ ((',' :: " image size: ".data) ++
        (wd ++ 'x' :: hd))))) = some [model, vae, wd, hd] :=
    mtch_anyL_comma model _ " vae: ".data _ [vae, wd, hd] hm hmc h2l
  exact (mtch_lit "Using model: ".data
    (model ++ (", vae: ".data ++ (vae ++ (", image size: ".data ++ (wd ++ ('x' :: hd))))))
    [.anyL, Pat.lit ", vae: ".data, .anyL, Pat.lit ", image size: ".data,
      .digitsL, Pat.lit "x".data, .digitsG]).trans h1

/-- The steps/cfg/sampler/seed line matches its regex, capturing the steps
digits, the cfg "%.2f" text, the sampler and the seed digits. -/
theorem mtch_paramPat2_render (std : List Char) (cfgK : Nat) (sa sdd : List Char)
    (hst : std ≠ []) (hstd : ∀ c ∈ std, c.isDigit = true)
    (hsa : sa ≠ []) (hsac : ',' ∉ sa)
    (hsd : sdd ≠ []) (hsdd : ∀ c ∈ sdd, c.isDigit = true) :
    mtch paramPat2
      ("Using steps: ".data ++ (std ++ (", cfg: ".data ++ (fmt2Nat cfgK ++
        (", sampler: ".data ++ (sa ++ (", seed ".data ++ sdd)))))))
      = some [std, fmt2Nat cfgK, sa, sdd] := by
  have hpad : pad2 (cfgK % 100) =
      [digitChar (cfgK % 100 / 10), digitChar (cfgK % 100 % 10)] :=
    pad2_eq _ (Nat.mod_lt _ (by norm_num))
  have h8 : mtch [.digitsG] sdd = some [sdd] := mtch_digitsG_last sdd hsd hsdd
  have h7 : mtch [Pat.lit (',' :: " seed ".data), .digitsG]
      ((',' :: " seed ".data) ++ sdd) = some [sdd] := by
    rw [mtch_lit]; exact h8
  have h6 : mtch [.anyL, Pat.lit (',' :: " seed ".data), .digitsG]
      (sa ++ ((',' :: " seed ".data) ++ sdd)) = some [sa, sdd] :=
    mtch_anyL_comma sa _ " seed ".data _ [sdd] hsa hsac h7
  have h5 : mtch [Pat.lit (',' :: " sampler: ".data), .anyL,
        Pat.lit (',' :: " seed ".data), .digitsG]
      ((',' :: " sampler: ".data) ++ (sa ++ ((',' :: " seed ".data) ++ sdd)))
      = some [sa, sdd] := by
    rw [mtch_lit]; exact h6
  have h4 : mtch [.dec2, Pat.lit (',' :: " sampler: ".data), .anyL,
        Pat.lit (',' :: " seed ".data), .digitsG]
      (fmt2Nat cfgK ++ ((',' :: " sampler: ".data) ++ (sa ++
        ((',' :: " seed ".data) ++ sdd)))) = some [fmt2Nat cfgK, sa, sdd] := by
    rw [show fmt2Nat cfgK =
      natDigits (cfgK / 100) ++ '.' :: pad2 (cfgK % 100) from rfl, hpad,
      List.append_assoc]
    exact mtch_dec2 (natDigits (cfgK / 100)) (digitChar (cfgK % 100 / 10))
      (digitChar (cfgK % 100 % 10))
      ((',' :: " sampler: ".data) ++ (sa ++ ((',' :: " seed ".data) ++ sdd)))
      [Pat.lit (',' :: " sampler: ".data), .anyL,
        Pat.lit (',' :: " seed ".data), .digitsG] [sa, sdd]
      (natDigits_digits _) (digitChar_isDigit _ (by omega))
      (digitChar_isDigit _ (by omega)) h5
  have h3 : mtch [Pat.lit (',' :: " cfg: ".data), .dec2,
        Pat.lit (',' :: " sampler: ".data), .anyL,
        Pat.lit (',' :: " seed ".data), .digitsG]
      ((',' :: " cfg: ".data) ++ (fmt2Nat cfgK ++ ((',' :: " sampler: ".data) ++
        (sa ++ ((',' :: " seed ".data) ++ sdd))))) = some [fmt2Nat cfgK, sa, sdd] := by
    rw [mtch_lit]; exact h4
  have h2 : mtch [.digitsL, Pat.lit (',' :: " cfg: ".data), .dec2,
        Pat.lit (',' :: " sampler: ".data), .anyL,
        Pat.lit (',' :: " seed ".data), .digitsG]
      (std ++ ',' :: (" cfg: ".data ++ (fmt2Nat cfgK ++ ((',' :: " sampler: ".data) ++
        (sa ++ ((',' :: " seed ".data) ++ sdd))))))
      = some [std, fmt2Nat cfgK, sa, sdd] :=
    mtch_digitsL std ','
      (" cfg: ".data ++ (fmt2Nat cfgK ++ ((',' :: " sampler: ".data) ++
        (sa ++ ((',' :: " seed ".data) ++ sdd)))))
      " cfg: ".data _ [fmt2Nat cfgK, sa, sdd] hst hstd (by decide) h3
  exact (mtch_lit "Using steps: ".data
    (std ++ (", cfg: ".data ++ (fmt2Nat cfgK ++ (", sampler: ".data ++
      (sa ++ (", seed ".data ++ sdd))))))
    [.digitsL, Pat.lit ", cfg: ".data, .dec2, Pat.lit ", sampler: ".data, .anyL,
      Pat.lit ", seed ".data, .digitsG]).trans h2

/-- The img2img line matches its regex, capturing mode, denoising "%.2f"
text and url. -/
theorem mtch_img2imgPat_render (md : List Char) (dk : Nat) (url : List Char)
    (hmd : md ≠ []) (hmdc : ',' ∉ md) (hurl : url ≠ []) :
    mtch img2imgPat
      ("img2img resize mode: ".data ++ (md ++ (", denoising str ".data ++
        (fmt2Nat dk ++ (", url: ".data ++ url)))))
      = some [md, fmt2Nat dk, url] := by
  have hpad : pad2 (dk % 100) =
      [digitChar (dk % 100 / 10), digitChar (dk % 100 % 10)] :=
    pad2_eq _ (Nat.mod_lt _ (by norm_num))
  have h5 : mtch [.anyG] url = some [url] := mtch_anyG_last url hurl
  have h4 : mtch [Pat.lit (',' :: " url: ".data), .anyG]
      ((',' :: " url: ".data) ++ url) = some [url] := by
    rw [mtch_lit]; exact h5
  have h3 : mtch [.dec2, Pat.lit (',' :: " url: ".data), .anyG]
      (fmt2Nat dk ++ ((',' :: " url: ".data) ++ url)) = some [fmt2Nat dk, url] := by
    rw [show fmt2Nat dk =
      natDigits (dk / 100) ++ '.' :: pad2 (dk % 100) from rfl, hpad,
      List.append_assoc]
    exact mtch_dec2 (natDigits (dk / 100)) (digitChar (dk % 100 / 10))
      (digitChar (dk % 100 % 10)) ((',' :: " url: ".data) ++ url)
      [Pat.lit (',' :: " url: ".data), .anyG] [url]
      (natDigits_digits _) (digitChar_isDigit _ (by omega))
      (digitChar_isDigit _ (by omega)) h4
  have h2 : mtch [Pat.lit (',' :: " denoising str ".data), .dec2,
        Pat.lit (',' :: " url: ".data), .anyG]
      ((',' :: " denoising str ".data) ++ (fmt2Nat dk ++ ((',' :: " url: ".data) ++ url)))
      = some [fmt2Nat dk, url] := by
    rw [mtch_lit]; exact h3
  have h1 : mtch [.anyL, Pat.lit (',' :: " denoising str ".data), .dec2,
        Pat.lit (',' :: " url: ".data), .anyG]
      (md ++ ((',' :: " denoising str ".data) ++ (fmt2Nat dk ++
        ((',' :: " url: ".data) ++ url)))) = some [md, fmt2Nat dk, url] :=
    mtch_anyL_comma md _ " denoising str ".data _ [fmt2Nat dk, url] hmd hmdc h2
  exact (mtch_lit "img2img resize mode: ".data
    (md ++ (", denoising str ".data ++ (fmt2Nat dk ++ (", url: ".data ++ url))))
    [.anyL, Pat.lit ", denoising str ".data, .dec2, Pat.lit ", url: ".data,
      .anyG]).trans h1

/-- The high-res line matches its regex, capturing the scale "%.2f" text,
the upscaler, the steps digits and the denoising "%.2f" text. -/
theorem mtch_hiresPat_render (sk : Nat) (up : List Char) (hsteps : List Char)
    (dk : Nat) (hup : up ≠ []) (hupc : ',' ∉ up)
    (hhs : hsteps ≠ []) (hhsd : ∀ c ∈ hsteps, c.isDigit = true) :
    mtch hiresPat
      ("Upscaling by ".data ++ (fmt2Nat sk ++ (" using highres upscaler ".data ++
        (up ++ (", ".data ++ (hsteps ++ (" steps. Denoising str ".data ++ fmt2Nat dk)))))))
      = some [fmt2Nat sk, up, hsteps, fmt2Nat dk] := by
  have hpads : pad2 (sk % 100) =
      [digitChar (sk % 100 / 10), digitChar (sk % 100 % 10)] :=
    pad2_eq _ (Nat.mod_lt _ (by norm_num))
  have hpadd : pad2 (dk % 100) =
      [digitChar (dk % 100 / 10), digitChar (dk % 100 % 10)] :=
    pad2_eq _ (Nat.mod_lt _ (by norm_num))
  have h8 : mtch [.dec2] (fmt2Nat dk) = some [fmt2Nat dk] := by
    rw [show fmt2Nat dk =
      natDigits (dk / 100) ++ '.' :: pad2 (dk % 100) from rfl, hpadd]
    exact mtch_dec2 (natDigits (dk / 100)) (digitChar (dk % 100 / 10))
      (digitChar (dk % 100 % 10)) [] [] []
      (natDigits_digits _) (digitChar_isDigit _ (by omega))
      (digitChar_isDigit _ (by omega)) rfl
  have h7 : mtch [Pat.lit (' ' :: "steps. Denoising str ".data), .dec2]
      ((' ' :: "steps. Denoising str ".data) ++ fmt2Nat dk) = some [fmt2Nat dk] := by
    rw [mtch_lit]; exact h8
  have h6 : mtch [.digitsG, Pat.lit (' ' :: "steps. Denoising str ".data), .dec2]
      (hsteps ++ ' ' :: ("steps. Denoising str ".data ++ fmt2Nat dk))
      = some [hsteps, fmt2Nat dk] :=
    mtch_digitsG_lit hsteps ' ' ("steps. Denoising str ".data ++ fmt2Nat dk)
      "steps. Denoising str ".data [.dec2] [fmt2Nat dk] hhs hhsd (by decide) h7
  have h5 : mtch [Pat.lit (',' :: " ".data), .digitsG,
        Pat.lit (' ' :: "steps. Denoising str ".data), .dec2]
      ((',' :: " ".data) ++ (hsteps ++ ' ' :: ("steps. Denoising str ".data ++ fmt2Nat dk)))
      = some [hsteps, fmt2Nat dk] := by
    rw [mtch_lit]; exact h6
  have h4 : mtch [.anyL, Pat.lit (',' :: " ".data), .digitsG,
        Pat.lit (' ' :: "steps. Denoising str ".data), .dec2]
      (up ++ ((',' :: " ".data) ++ (hsteps ++ ' ' ::
        ("steps. Denoising str ".data ++ fmt2Nat dk))))
      = some [up, hsteps, fmt2Nat dk] :=
    mtch_anyL_comma up _ " ".data _ [hsteps, fmt2Nat dk] hup hupc h5
  have h3 : mtch [Pat.lit (' ' :: "using highres upscaler ".data), .anyL,
        Pat.lit (',' :: " ".data), .digitsG,
        Pat.lit (' ' :: "steps. Denoising str ".data), .dec2]
      ((' ' :: "using highres upscaler ".data) ++ (up ++ ((',' :: " ".data) ++
        (hsteps ++ ' ' :: ("steps. Denoising str ".data ++ fmt2Nat dk)))))
      = some [up, hsteps, fmt2Nat dk] := by
    rw [mtch_lit]; exact h4
  have h2 : mtch [.dec2, Pat.lit (' ' :: "using highres upscaler ".data), .anyL,
        Pat.lit (',' :: " ".data), .digitsG,
        Pat.lit (' ' :: "steps. Denoising str ".data), .dec2]
      (fmt2Nat sk ++ ((' ' :: "using highres upscaler ".data) ++ (up ++
        ((',' :: " ".data) ++ (hsteps ++ ' ' ::
          ("steps. Denoising str ".data ++ fmt2Nat dk))))))
      = some [fmt2Nat sk, up, hsteps, fmt2Nat dk] := by
    rw [show fmt2Nat sk =
      natDigits (sk / 100) ++ '.' :: pad2 (sk % 100) from rfl, hpads,
      List.append_assoc]
    exact mtch_dec2 (natDigits (sk / 100)) (digitChar (sk % 100 / 10))
      (digitChar (sk % 100 % 10))
      ((' ' :: "using highres upscaler ".data) ++ (up ++ ((',' :: " ".data) ++
        (hsteps ++ ' ' :: ("steps. Denoising str ".data ++ fmt2Nat dk)))))
      [Pat.lit (' ' :: "using highres upscaler ".data), .anyL,
        Pat.lit (',' :: " ".data), .digitsG,
        Pat.lit (' ' :: "steps. Denoising str ".data), .dec2]
      [up, hsteps, fmt2Nat dk]
      (natDigits_digits _) (digitChar_isDigit _ (by omega))
      (digitChar_isDigit _ (by omega)) h3
  exact (mtch_lit "Upscaling by ".data
    (fmt2Nat sk ++ (" using highres upscaler ".data ++ (up ++ (", ".data ++
      (hsteps ++ (" steps. Denoising str ".data ++ fmt2Nat dk))))))
    [.dec2, Pat.lit " using highres upscaler ".data, .anyL, Pat.lit ", ".data,
      .digitsG, Pat.lit " steps. Denoising str ".data, .dec2]).trans h2

/-- The img2img regex rejects the high-res line (first characters differ). -/
theorem mtch_img2imgPat_Upscaling (rest : List Char) :
    mtch img2imgPat ('U' :: rest) = none :=
  mtch_lit_ne 'i' 'U' "mg2img resize mode: ".data rest
    [.anyL, Pat.lit ", denoising str ".data, .dec2, Pat.lit ", url: ".data, .anyG]
    (by decide)

/-- The first ack line is free of line boundaries. -/
theorem nl_ackLine1 (bsd pr : List Char) (hb : ∀ c ∈ bsd, c.isDigit = true)
    (hpr : ∀ c ∈ pr, isLineBreak c = false) :
    ∀ c ∈ ackLine1 bsd pr, isLineBreak c = false := by
  unfold ackLine1
  intro c hm
  rcases List.mem_append.mp hm with hm | hm
  · exact (by decide : ∀ x ∈ "Generating ".data, isLineBreak x = false) c hm
  rcases List.mem_append.mp hm with hm | hm
  · exact break_ne_digit c (hb _ hm)
  rcases List.mem_append.mp hm with hm | hm
  · exact (by decide : ∀ x ∈ " images for prompt: ".data, isLineBreak x = false) c hm
  · exact hpr c hm

/-- The negative-prompt ack line is free of line boundaries. -/
theorem nl_ackLine2 (np : List Char) (hnp : ∀ c ∈ np, isLineBreak c = false) :
    ∀ c ∈ ackLine2 np, isLineBreak c = false := by
  unfold ackLine2
  intro c hm
  rcases List.mem_append.mp hm with hm | hm
  · exact (by decide : ∀ x ∈ "negative prompt: ".data, isLineBreak x = false) c hm
  · exact hnp c hm

/-- The model/vae/size ack line is free of line boundaries. -/
theorem nl_ackLine3 (model vae wd hd : List Char)
    (hm1 : ∀ c ∈ model, isLineBreak c = false)
    (hv1 : ∀ c ∈ vae, isLineBreak c = false)
    (hw : ∀ c ∈ wd, c.isDigit = true) (hh : ∀ c ∈ hd, c.isDigit = true) :
    ∀ c ∈ ackLine3 model vae wd hd, isLineBreak c = false := by
  unfold ackLine3
  intro c hm
  rcases List.mem_append.mp hm with hm | hm
  · exact (by decide : ∀ x ∈ "Using model: ".data, isLineBreak x = false) c hm
  rcases List.mem_append.mp hm with hm | hm
  · exact hm1 c hm
  rcases List.mem_append.mp hm with hm | hm
  · exact (by decide : ∀ x ∈ ", vae: ".data, isLineBreak x = false) c hm
  rcases List.mem_append.mp hm with hm | hm
  · exact hv1 c hm
  rcases List.mem_append.mp hm with hm | hm
  · exact (by decide : ∀ x ∈ ", image size: ".data, isLineBreak x = false) c hm
  rcases List.mem_append.mp hm with hm | hm
  · exact break_ne_digit c (hw _ hm)
  rcases List.mem_cons.mp hm with hm | hm
  · subst hm; decide
  · exact break_ne_digit c (hh _ hm)

/-- The steps/cfg/sampler/seed ack line is free of line boundaries. -/
theorem nl_ackLine4 (std : List Char) (cfgK : Nat) (sa sdd : List Char)
    (hst : ∀ c ∈ std, c.isDigit = true)
    (hsa : ∀ c ∈ sa, isLineBreak c = false)
    (hsd : ∀ c ∈ sdd, c.isDigit = true) :
    ∀ c ∈ ackLine4 std cfgK sa sdd, isLineBreak c = false := by
  unfold ackLine4
  intro c hm
  rcases List.mem_append.mp hm with hm | hm
  · exact (by decide : ∀ x ∈ "Using steps: ".data, isLineBreak x = false) c hm
  rcases List.mem_append.mp hm with hm | hm
  · exact break_ne_digit c (hst _ hm)
  rcases List.mem_append.mp hm with hm | hm
  · exact (by decide : ∀ x ∈ ", cfg: ".data, isLineBreak x = false) c hm
  rcases List.mem_append.mp hm with hm | hm
  · exact fmt2Nat_no_break cfgK c hm
  rcases List.mem_append.mp hm with hm | hm
  · exact (by decide : ∀ x ∈ ", sampler: ".data, isLineBreak x = false) c hm
  rcases List.mem_append.mp hm with hm | hm
  · exact hsa c hm
  rcases List.mem_append.mp hm with hm | hm
  · exact (by decide : ∀ x ∈ ", seed ".data, isLineBreak x = false) c hm
  · exact break_ne_digit c (hsd _ hm)

/-- The img2img ack line is free of line boundaries. -/
theorem nl_ackLine5i (md : List Char) (dk : Nat) (url : List Char)
    (hmd : ∀ c ∈ md, isLineBreak c = false)
    (hurl : ∀ c ∈ url, isLineBreak c = false) :
    ∀ c ∈ ackLine5i md dk url, isLineBreak c = false := by
  unfold ackLine5i
  intro c hm
  rcases List.mem_append.mp hm with hm | hm
  · exact (by decide : ∀ x ∈ "img2img resize mode: ".data, isLineBreak x = false) c hm
  rcases List.mem_append.mp hm with hm | hm
  · exact hmd c hm
  rcases List.mem_append.mp hm with hm | hm
  · exact (by decide : ∀ x ∈ ", denoising str ".data, isLineBreak x = false) c hm
  rcases List.mem_append.mp hm with hm | hm
  · exact fmt2Nat_no_break dk c hm
  rcases List.mem_append.mp hm with hm | hm
  · exact (by decide : ∀ x ∈ ", url: ".data, isLineBreak x = false) c hm
  · exact hurl c hm

/-- The high-res ack line is free of line boundaries. -/
theorem nl_ackLine5h (sk : Nat) (up hsd : List Char) (dk : Nat)
    (hup : ∀ c ∈ up, isLineBreak c = false)
    (hhs : ∀ c ∈ hsd, c.isDigit = true) :
    ∀ c ∈ ackLine5h sk up hsd dk, isLineBreak c = false := by
  unfold ackLine5h
  intro c hm
  rcases List.mem_append.mp hm with hm | hm
  · exact (by decide : ∀ x ∈ "Upscaling by ".data, isLineBreak x = false) c hm
  rcases List.mem_append.mp hm with hm | hm
  · exact fmt2Nat_no_break sk c hm
  rcases List.mem_append.mp hm with hm | hm
  · exact (by decide :
      ∀ x ∈ " using highres upscaler ".data, isLineBreak x = false) c hm
  rcases List.mem_append.mp hm with hm | hm
  · exact hup c hm
  rcases List.mem_append.mp hm with hm | hm
  · exact (by decide : ∀ x ∈ ", ".data, isLineBreak x = false) c hm
  rcases List.mem_append.mp hm with hm | hm
  · exact break_ne_digit c (hhs _ hm)
  rcases List.mem_append.mp hm with hm | hm
  · exact (by decide :
      ∀ x ∈ " steps. Denoising str ".data, isLineBreak x = false) c hm
  · exact fmt2Nat_no_break dk c hm

/-- The img2img ack line is nonempty (it starts with its literal). -/
theorem ackLine5i_ne_nil (md : List Char) (dk : Nat) (url : List Char) :
    ackLine5i md dk url ≠ [] := List.cons_ne_nil _ _

/-- Binding a present optional value applies the continuation. -/
theorem optionBind_some {α β : Type} (a : α) (f : α → Option β) :
    Option.bind (some a) f = f a := rfl

/-- Monadic bind of a present optional value applies the continuation. -/
theorem bind_some_opt {α β : Type} (a : α) (f : α → Option β) :
    ((some a : Option α) >>= f) = f a := rfl

/-- pure in the Option monad. -/
theorem opure_eq {α : Type} (a : α) : (pure a : Option α) = some a := rfl

/-- str() of a string dict entry. -/
theorem pvalStr_str (s : String) : pvalStr (.str s) = some s.data := rfl

/-- "%.2f" of a dict entry holding an exact number of hundredths. -/
theorem pvalFmt2_centi (k : Nat) :
    pvalFmt2 (.num ((k : ℚ) / 100)) = some (fmt2Nat k) := by
  show some (fmt2 ((k : ℚ) / 100)) = some (fmt2Nat k)
  rw [fmt2_centi]

/-- make_message_str on a dict presenting the eight always-rendered keys,
no image url, and a scale of at most 1: the four mandatory lines. -/
theorem render_base (v : Params) (pr np : String) (bsi : Int)
    (model vae : String) (w h st cfgK : Nat) (sa : String) (sd : Nat)
    (scaleQ : ℚ)
    (hm : v .model = some (.str model)) (hv : v .vae = some (.str vae))
    (hw : v .width = some (.num (w : ℚ))) (hh : v .height = some (.num (h : ℚ)))
    (hst : v .steps = some (.num (st : ℚ)))
    (hcf : v .cfg = some (.num ((cfgK : ℚ) / 100)))
    (hsa : v .sampler = some (.str sa)) (hsd : v .seed = some (.num (sd : ℚ)))
    (hscv : v .scale = some (.num scaleQ)) (hsc : ¬ (1 : ℚ) < scaleQ) :
    make_message_str pr np bsi none v =
      some ⟨ackLine1 (intDigits bsi) pr.data ++ '\n' ::
        (ackLine2 np.data ++ '\n' ::
          (ackLine3 model.data vae.data (natDigits w) (natDigits h) ++ '\n' ::
            (ackLine4 (natDigits st) cfgK sa.data (natDigits sd) ++ '\n' :: [])))⟩ := by
  rw [make_message_str, hm, hv, hw, hh, hst, hcf, hsa, hsd, hscv]
  simp only [optionBind_some, bind_some_opt, opure_eq, pvalStr_str,
    pvalStr_natCast, pvalFmt2_centi]
  rw [if_neg hsc]
  try simp only [bind_some_opt, opure_eq]
  exact congrArg (fun l : List Char => some (String.mk l)) (by
    simp only [ackLine1, ackLine2, ackLine3, ackLine4, List.append_assoc,
      List.cons_append, List.nil_append, List.append_nil])

/-- make_message_str on a dict additionally presenting the high-res keys and
a scale of hundredths exceeding 1: the four mandatory lines and the
high-res line. -/
theorem render_hires (v : Params) (pr np : String) (bsi : Int)
    (model vae : String) (w h st cfgK : Nat) (sa : String) (sd : Nat)
    (sk : Nat) (up : String) (hsteps dk : Nat)
    (hm : v .model = some (.str model)) (hv : v .vae = some (.str vae))
    (hw : v .width = some (.num (w : ℚ))) (hh : v .height = some (.num (h : ℚ)))
    (hst : v .steps = some (.num (st : ℚ)))
    (hcf : v .cfg = some (.num ((cfgK : ℚ) / 100)))
    (hsa : v .sampler = some (.str sa)) (hsd : v .seed = some (.num (sd : ℚ)))
    (hscv : v .scale = some (.num ((sk : ℚ) / 100))) (hsk : 100 < sk)
    (hup : v .upscaler = some (.str up))
    (hhs : v .highresSteps = some (.num (hsteps : ℚ)))
    (hden : v .denoisingStr = some (.num ((dk : ℚ) / 100))) :
    make_message_str pr np bsi none v =
      some ⟨ackLine1 (intDigits bsi) pr.data ++ '\n' ::
        (ackLine2 np.data ++ '\n' ::
          (ackLine3 model.data vae.data (natDigits w) (natDigits h) ++ '\n' ::
            (ackLine4 (natDigits st) cfgK sa.data (natDigits sd) ++ '\n' ::
              (ackLine5h sk up.data (natDigits hsteps) dk ++ '\n' :: []))))⟩ := by
  have hgt : (1 : ℚ) < (sk : ℚ) / 100 := by
    rw [lt_div_iff₀ (by norm_num : (0 : ℚ) < 100)]
    exact_mod_cast by omega
  rw [make_message_str, hm, hv, hw, hh, hst, hcf, hsa, hsd, hscv, hup, hhs, hden]
  simp only [optionBind_some, bind_some_opt, opure_eq, pvalStr_str,
    pvalStr_natCast, pvalFmt2_centi]
  rw [if_pos hgt]
  try simp only [bind_some_opt, opure_eq, pvalFmt2_centi, pvalStr_str,
    pvalStr_natCast, optionBind_some]
  exact congrArg (fun l : List Char => some (String.mk l)) (by
    simp only [ackLine1, ackLine2, ackLine3, ackLine4, ackLine5h,
      List.append_assoc, List.cons_append, List.nil_append, List.append_nil])

/-- make_message_str on a dict additionally presenting the img2img keys and
an image url: the four mandatory lines and the img2img line, which ends the
message without a newline. -/
theorem render_img (v : Params) (pr np : String) (bsi : Int)
    (model vae : String) (w h st cfgK : Nat) (sa : String) (sd : Nat)
    (md : String) (dk : Nat) (url : String)
    (hm : v .model = some (.str model)) (hv : v .vae = some (.str vae))
    (hw : v .width = some (.num (w : ℚ))) (hh : v .height = some (.num (h : ℚ)))
    (hst : v .steps = some (.num (st : ℚ)))
    (hcf : v .cfg = some (.num ((cfgK : ℚ) / 100)))
    (hsa : v .sampler = some (.str sa)) (hsd : v .seed = some (.num (sd : ℚ)))
    (hrm : v .resizeMode = some (.str md))
    (hdi : v .denoisingStrImg2img = some (.num ((dk : ℚ) / 100))) :
    make_message_str pr np bsi (some url) v =
      some ⟨ackLine1 (intDigits bsi) pr.data ++ '\n' ::
        (ackLine2 np.data ++ '\n' ::
          (ackLine3 model.data vae.data (natDigits w) (natDigits h) ++ '\n' ::
            (ackLine4 (natDigits st) cfgK sa.data (natDigits sd) ++ '\n' ::
              ackLine5i md.data dk url.data)))⟩ := by
  rw [make_message_str, hm, hv, hw, hh, hst, hcf, hsa, hsd, hrm, hdi]
  simp only [optionBind_some, bind_some_opt, opure_eq, pvalStr_str,
    pvalStr_natCast, pvalFmt2_centi]
  exact congrArg (fun l : List Char => some (String.mk l)) (by
    simp only [ackLine1, ackLine2, ackLine3, ackLine4, ackLine5i,
      List.append_assoc, List.cons_append, List.nil_append, List.append_nil])

/-- splitlines of a four-line newline-terminated text. -/
theorem pySplitlines_4 (L1 L2 L3 L4 : List Char)
    (h1 : ∀ c ∈ L1, isLineBreak c = false) (h2 : ∀ c ∈ L2, isLineBreak c = false)
    (h3 : ∀ c ∈ L3, isLineBreak c = false) (h4 : ∀ c ∈ L4, isLineBreak c = false) :
    pySplitlines (L1 ++ '\n' :: (L2 ++ '\n' :: (L3 ++ '\n' :: (L4 ++ '\n' :: [])))) =
      [L1, L2, L3, L4] := by
  rw [pySplitlines, splitNL_append _ h1, splitNL_append _ h2, splitNL_append _ h3,
    splitNL_append _ h4]
  rfl

/-- splitlines of a five-line newline-terminated text. -/
theorem pySplitlines_5 (L1 L2 L3 L4 L5 : List Char)
    (h1 : ∀ c ∈ L1, isLineBreak c = false) (h2 : ∀ c ∈ L2, isLineBreak c = false)
    (h3 : ∀ c ∈ L3, isLineBreak c = false) (h4 : ∀ c ∈ L4, isLineBreak c = false)
    (h5 : ∀ c ∈ L5, isLineBreak c = false) :
    pySplitlines (L1 ++ '\n' :: (L2 ++ '\n' :: (L3 ++ '\n' ::
      (L4 ++ '\n' :: (L5 ++ '\n' :: []))))) = [L1, L2, L3, L4, L5] := by
  rw [pySplitlines, splitNL_append _ h1, splitNL_append _ h2, splitNL_append _ h3,
    splitNL_append _ h4, splitNL_append _ h5]
  rfl

/-- splitlines of four newline-terminated lines followed by a final
unterminated nonempty line. -/
theorem pySplitlines_last (L1 L2 L3 L4 L5 : List Char)
    (h1 : ∀ c ∈ L1, isLineBreak c = false) (h2 : ∀ c ∈ L2, isLineBreak c = false)
    (h3 : ∀ c ∈ L3, isLineBreak c = false) (h4 : ∀ c ∈ L4, isLineBreak c = false)
    (h5 : ∀ c ∈ L5, isLineBreak c = false) (hne : L5 ≠ []) :
    pySplitlines (L1 ++ '\n' :: (L2 ++ '\n' :: (L3 ++ '\n' :: (L4 ++ '\n' :: L5)))) =
      [L1, L2, L3, L4, L5] := by
  rw [pySplitlines, splitNL_append _ h1, splitNL_append _ h2, splitNL_append _ h3,
    splitNL_append _ h4, splitNL_no_nl _ h5]
  show (if ([L1, L2, L3, L4, L5] : List (List Char)).getLast? = some [] then
      ([L1, L2, L3, L4, L5] : List (List Char)).dropLast else [L1, L2, L3, L4, L5]) =
    [L1, L2, L3, L4, L5]
  rw [show ([L1, L2, L3, L4, L5] : List (List Char)).getLast? = some L5 from rfl]
  rw [if_neg (fun hcon => hne (Option.some.inj hcon))]

/-- Mapping parse_message_str over a present rendered string parses its
split lines. -/
theorem map_parse_mk (e : Env) (l : List Char) :
    (some (String.mk l) : Option String).map (fun s => parse_message_str e s)
      = some (parseLines e (pySplitlines l)) := rfl

/-- Binding a successful Except value applies the continuation. -/
theorem ebind_ok {α β : Type} (a : α) (f : α → Except PyErr β) :
    ((Except.ok a : Except PyErr α) >>= f) = f a := rfl

/-- Binding a pure Except value applies the continuation. -/
theorem ebind_pure {α β : Type} (a : α) (f : α → Except PyErr β) :
    ((pure a : Except PyErr α) >>= f) = f a := rfl

/-- Group 1 of a match. -/
theorem nthGroup_0 (g : List Char) (gs : List (List Char)) :
    nthGroup (g :: gs) 0 = .ok g := rfl

/-- Group 2 of a match. -/
theorem nthGroup_1 (a g : List Char) (gs : List (List Char)) :
    nthGroup (a :: g :: gs) 1 = .ok g := rfl

/-- Group 3 of a match. -/
theorem nthGroup_2 (a b g : List Char) (gs : List (List Char)) :
    nthGroup (a :: b :: g :: gs) 2 = .ok g := rfl

/-- Group 4 of a match. -/
theorem nthGroup_3 (a b c g : List Char) (gs : List (List Char)) :
    nthGroup (a :: b :: c :: g :: gs) 3 = .ok g := rfl

/-- int() of rendered digits parses back the value. -/
theorem toIntVal_natDigits (n : Nat) :
    toIntVal (natDigits n) = .ok (.num ((n : ℚ))) := by
  rw [toIntVal, pyIntOfDigits_natDigits]
  exact congrArg (fun q : ℚ => (Except.ok (PVal.num q) : Except PyErr PVal))
    (Int.cast_natCast n)

/-- float() of a "%.2f" rendering parses back the hundredths. -/
theorem toFloatVal_fmt2Nat (k : Nat) :
    toFloatVal (fmt2Nat k) = .ok (.num ((k : ℚ) / 100)) := by
  rw [toFloatVal, pyFloat_fmt2Nat]

/-- The dict collected by parsing the four mandatory rendered lines
validates exactly as the round-trip dict does: every key agrees, and the
parser's seeded scale 1 and the dict's scale of at most 1 both clamp to 1. -/
theorem validate_parsed_base (e : Env) (bs w h st cfgK sd : Nat)
    (pr np model vae sa : String) (scaleQ : ℚ) (hsc : scaleQ ≤ 1) :
    validate_params e
      (setParam (setParam (setParam (setParam (setParam (setParam (setParam (setParam
        (setParam (setParam (setParam
          (fun k => if k = .scale then some (.num 1) else none)
          .batchSize (.num (bs : ℚ))) .prompt (.str ⟨pr.data⟩)) .negPrompt (.str ⟨np.data⟩))
          .model (.str ⟨model.data⟩)) .vae (.str ⟨vae.data⟩)) .width (.num (w : ℚ)))
          .height (.num (h : ℚ))) .steps (.num (st : ℚ))) .cfg (.num ((cfgK : ℚ) / 100)))
          .sampler (.str ⟨sa.data⟩)) .seed (.num (sd : ℚ)))
      = validate_params e
          (mkRoundParams bs pr np model vae w h st cfgK sa sd scaleQ .base) := by
  exact congrArg some (funext fun k => by
    cases k
    case scale =>
      show (some (PVal.num (min (max (1 : ℚ) 1) 2)) : Option PVal)
        = some (PVal.num (min (max scaleQ 1) 2))
      rw [max_eq_right hsc, max_self]
    all_goals rfl)

/-- The dict collected by parsing the five rendered lines of a high-res
message validates exactly as the round-trip dict does. -/
theorem validate_parsed_hires (e : Env) (bs w h st cfgK sd : Nat)
    (pr np model vae sa : String) (scaleQ : ℚ) (sk : Nat) (up : String)
    (hsteps dk : Nat) :
    validate_params e
      (setParam (setParam (setParam (setParam
        (setParam (setParam (setParam (setParam (setParam (setParam (setParam (setParam
          (setParam (setParam (setParam
            (fun k => if k = .scale then some (.num 1) else none)
            .batchSize (.num (bs : ℚ))) .prompt (.str ⟨pr.data⟩)) .negPrompt (.str ⟨np.data⟩))
            .model (.str ⟨model.data⟩)) .vae (.str ⟨vae.data⟩)) .width (.num (w : ℚ)))
            .height (.num (h : ℚ))) .steps (.num (st : ℚ))) .cfg (.num ((cfgK : ℚ) / 100)))
            .sampler (.str ⟨sa.data⟩)) .seed (.num (sd : ℚ)))
        .scale (.num ((sk : ℚ) / 100))) .upscaler (.str ⟨up.data⟩))
        .highresSteps (.num (hsteps : ℚ))) .denoisingStr (.num ((dk : ℚ) / 100)))
      = validate_params e
          (mkRoundParams bs pr np model vae w h st cfgK sa sd scaleQ
            (.hires sk up hsteps dk)) := by
  exact congrArg some (funext fun k => by cases k <;> rfl)

/-- The dict collected by parsing the five rendered lines of an img2img
message validates exactly as the round-trip dict does. -/
theorem validate_parsed_img (e : Env) (bs w h st cfgK sd : Nat)
    (pr np model vae sa : String) (scaleQ : ℚ) (md : String) (dk : Nat)
    (url : String) (hsc : scaleQ ≤ 1) :
    validate_params e
      (setParam (setParam (setParam
        (setParam (setParam (setParam (setParam (setParam (setParam (setParam (setParam
          (setParam (setParam (setParam
            (fun k => if k = .scale then some (.num 1) else none)
            .batchSize (.num (bs : ℚ))) .prompt (.str ⟨pr.data⟩)) .negPrompt (.str ⟨np.data⟩))
            .model (.str ⟨model.data⟩)) .vae (.str ⟨vae.data⟩)) .width (.num (w : ℚ)))
            .height (.num (h : ℚ))) .steps (.num (st : ℚ))) .cfg (.num ((cfgK : ℚ) / 100)))
            .sampler (.str ⟨sa.data⟩)) .seed (.num (sd : ℚ)))
        .resizeMode (.str ⟨md.data⟩)) .denoisingStrImg2img (.num ((dk : ℚ) / 100)))
        .imageUrl (.str ⟨url.data⟩))
      = validate_params e
          (mkRoundParams bs pr np model vae w h st cfgK sa sd scaleQ
            (.img md dk url)) := by
  exact congrArg some (funext fun k => by
    cases k
    case scale =>
      show (some (PVal.num (min (max (1 : ℚ) 1) 2)) : Option PVal)
        = some (PVal.num (min (max scaleQ 1) 2))
      rw [max_eq_right hsc, max_self]
    all_goals rfl)

/-- Claim C1 as amended: the ack-message codec round-trips through
validation for every dict of the rendered key shape whose strings are
line-safe (nonempty and free of every character str.splitlines breaks at;
comma-free where rendered before a comma-led delimiter), whose numeric
values are nonnegative integers or exact hundredths, and whose seed is
nonnegative — the original claim fails at the valid seed −1, whose
rendering "seed -1" the parser's digit-only regex rejects. Parsing the
rendered message returns exactly the validated dict, in all three shapes:
no extra block, a high-res block (scale > 1), or an img2img block. -/
theorem roundtrip_amended (e : Env) (bs w h st cfgK sd : Nat)
    (pr np model vae sa : String) (scaleQ : ℚ) (extra : MsgExtra)
    (hpr : lineSafe pr) (hnp : lineSafe np)
    (hmodel : fieldSafe model) (hvae : fieldSafe vae) (hsa : fieldSafe sa)
    (hextra : match extra with
      | .base => scaleQ ≤ 1
      | .hires sk u _ _ => 100 < sk ∧ fieldSafe u
      | .img md _ u => scaleQ ≤ 1 ∧ fieldSafe md ∧ lineSafe u) :
    (make_message_str pr np (bs : Int) (extraUrl extra)
        (mkRoundParams bs pr np model vae w h st cfgK sa sd scaleQ extra)).map
        (fun s => parse_message_str e s)
      = (validate_params e
          (mkRoundParams bs pr np model vae w h st cfgK sa sd scaleQ extra)).map
          Except.ok := by
  obtain ⟨hpr1, hpr2⟩ := hpr
  obtain ⟨hnp1, hnp2⟩ := hnp
  obtain ⟨⟨hm1, hm2⟩, hm3⟩ := hmodel
  obtain ⟨⟨hv1, hv2⟩, hv3⟩ := hvae
  obtain ⟨⟨hs1, hs2⟩, hs3⟩ := hsa
  have hg1 : getGroups argPat1 (ackLine1 (natDigits bs) pr.data)
      = .ok [natDigits bs, pr.data] := by
    rw [getGroups, ackLine1,
      mtch_argPat1_render _ _ (natDigits_ne_nil bs) (natDigits_digits bs) hpr1]
  have hg2 : getGroups argPat2 (ackLine2 np.data) = .ok [np.data] := by
    rw [getGroups, ackLine2, mtch_argPat2_render _ hnp1]
  have hg3 : getGroups paramPat1
      (ackLine3 model.data vae.data (natDigits w) (natDigits h))
      = .ok [model.data, vae.data, natDigits w, natDigits h] := by
    rw [getGroups, ackLine3, mtch_paramPat1_render _ _ _ _ hm1 hm3 hv1 hv3
      (natDigits_ne_nil w) (natDigits_digits w) (natDigits_ne_nil h)
      (natDigits_digits h)]
  have hg4 : getGroups paramPat2
      (ackLine4 (natDigits st) cfgK sa.data (natDigits sd))
      = .ok [natDigits st, fmt2Nat cfgK, sa.data, natDigits sd] := by
    rw [getGroups, ackLine4, mtch_paramPat2_render _ cfgK _ _
      (natDigits_ne_nil st) (natDigits_digits st) hs1 hs3
      (natDigits_ne_nil sd) (natDigits_digits sd)]
  cases extra with
  | base =>
    have hsc : scaleQ ≤ 1 := hextra
    rw [show extraUrl MsgExtra.base = none from rfl]
    rw [render_base
      (mkRoundParams bs pr np model vae w h st cfgK sa sd scaleQ .base)
      pr np (bs : Int) model vae w h st cfgK sa sd scaleQ
      rfl rfl rfl rfl rfl rfl rfl rfl rfl (not_lt.mpr hsc)]
    rw [map_parse_mk, intDigits_natCast]
    rw [pySplitlines_4 _ _ _ _
      (nl_ackLine1 _ _ (natDigits_digits bs) hpr2)
      (nl_ackLine2 _ hnp2)
      (nl_ackLine3 _ _ _ _ hm2 hv2 (natDigits_digits w) (natDigits_digits h))
      (nl_ackLine4 _ cfgK _ _ (natDigits_digits st) hs2 (natDigits_digits sd))]
    rw [parseLines, hg1, hg2, hg3, hg4]
    simp only [ebind_ok, ebind_pure, nthGroup_0, nthGroup_1, nthGroup_2,
      nthGroup_3, toIntVal_natDigits, toFloatVal_fmt2Nat]
    rw [validate_parsed_base e bs w h st cfgK sd pr np model vae sa scaleQ hsc]
    rfl
  | hires sk up hsteps dk =>
    obtain ⟨hsk, ⟨⟨hu1, hu2⟩, hu3⟩⟩ := hextra
    rw [show extraUrl (MsgExtra.hires sk up hsteps dk) = none from rfl]
    rw [render_hires
      (mkRoundParams bs pr np model vae w h st cfgK sa sd scaleQ
        (.hires sk up hsteps dk))
      pr np (bs : Int) model vae w h st cfgK sa sd sk up hsteps dk
      rfl rfl rfl rfl rfl rfl rfl rfl rfl hsk rfl rfl rfl]
    rw [map_parse_mk, intDigits_natCast]
    rw [pySplitlines_5 _ _ _ _ _
      (nl_ackLine1 _ _ (natDigits_digits bs) hpr2)
      (nl_ackLine2 _ hnp2)
      (nl_ackLine3 _ _ _ _ hm2 hv2 (natDigits_digits w) (natDigits_digits h))
      (nl_ackLine4 _ cfgK _ _ (natDigits_digits st) hs2 (natDigits_digits sd))
      (nl_ackLine5h sk _ _ dk hu2 (natDigits_digits hsteps))]
    have hnone : mtch img2imgPat (ackLine5h sk up.data (natDigits hsteps) dk)
        = none :=
      mtch_img2imgPat_Upscaling
        ("pscaling by ".data ++ (fmt2Nat sk ++ (" using highres upscaler ".data ++
          (up.data ++ (", ".data ++ (natDigits hsteps ++
            (" steps. Denoising str ".data ++ fmt2Nat dk)))))))
    have hg5 : mtch hiresPat (ackLine5h sk up.data (natDigits hsteps) dk)
        = some [fmt2Nat sk, up.data, natDigits hsteps, fmt2Nat dk] := by
      rw [ackLine5h]
      exact mtch_hiresPat_render sk up.data (natDigits hsteps) dk hu1 hu3
        (natDigits_ne_nil hsteps) (natDigits_digits hsteps)
    rw [parseLines, hg1, hg2, hg3, hg4]
    simp only [ebind_ok, ebind_pure, nthGroup_0, nthGroup_1, nthGroup_2,
      nthGroup_3, toIntVal_natDigits, toFloatVal_fmt2Nat]
    rw [hnone, hg5]
    simp only [ebind_ok, ebind_pure, nthGroup_0, nthGroup_1, nthGroup_2,
      nthGroup_3, toIntVal_natDigits, toFloatVal_fmt2Nat]
    rw [validate_parsed_hires e bs w h st cfgK sd pr np model vae sa scaleQ
      sk up hsteps dk]
    rfl
  | img md dk url =>
    obtain ⟨hsc, ⟨⟨hmd1, hmd2⟩, hmd3⟩, ⟨hurl1, hurl2⟩⟩ := hextra
    rw [show extraUrl (MsgExtra.img md dk url) = some url from rfl]
    rw [render_img
      (mkRoundParams bs pr np model vae w h st cfgK sa sd scaleQ
        (.img md dk url))
      pr np (bs : Int) model vae w h st cfgK sa sd md dk url
      rfl rfl rfl rfl rfl rfl rfl rfl rfl rfl]
    rw [map_parse_mk, intDigits_natCast]
    rw [pySplitlines_last _ _ _ _ _
      (nl_ackLine1 _ _ (natDigits_digits bs) hpr2)
      (nl_ackLine2 _ hnp2)
      (nl_ackLine3 _ _ _ _ hm2 hv2 (natDigits_digits w) (natDigits_digits h))
      (nl_ackLine4 _ cfgK _ _ (natDigits_digits st) hs2 (natDigits_digits sd))
      (nl_ackLine5i _ dk _ hmd2 hurl2) (ackLine5i_ne_nil _ _ _)]
    have hg5 : mtch img2imgPat (ackLine5i md.data dk url.data)
        = some [md.data, fmt2Nat dk, url.data] := by
      rw [ackLine5i]
      exact mtch_img2imgPat_render md.data dk url.data hmd1 hmd3 hurl1
    rw [parseLines, hg1, hg2, hg3, hg4]
    simp only [ebind_ok, ebind_pure, nthGroup_0, nthGroup_1, nthGroup_2,
      nthGroup_3, toIntVal_natDigits, toFloatVal_fmt2Nat]
    rw [hg5]
    simp only [ebind_ok, ebind_pure, nthGroup_0, nthGroup_1, nthGroup_2,
      nthGroup_3, toIntVal_natDigits, toFloatVal_fmt2Nat]
    rw [validate_parsed_img e bs w h st cfgK sd pr np model vae sa scaleQ
      md dk url hsc]
    rfl

/-- Concrete instance of roundtrip_amended: the codec test's base dict
(batch 4, 256x512, 28 steps, cfg 8.50, Euler, seed 420, scale 1)
round-trips in the test environment. -/
theorem roundtrip_amended_witness :
    lineSafe "a test prompt" ∧
    (make_message_str "a test prompt" "a test negative prompt" ((4 : Nat) : Int)
        (extraUrl .base)
        (mkRoundParams 4 "a test prompt" "a test negative prompt" "test model"
          "test vae" 256 512 28 850 "Euler" 420 1 .base)).map
        (fun s => parse_message_str c1Env s)
      = (validate_params c1Env
          (mkRoundParams 4 "a test prompt" "a test negative prompt" "test model"
            "test vae" 256 512 28 850 "Euler" 420 1 .base)).map Except.ok :=
  ⟨⟨by decide, by decide⟩,
    roundtrip_amended c1Env 4 256 512 28 850 420 "a test prompt"
      "a test negative prompt" "test model" "test vae" "Euler" 1 .base
      ⟨by decide, by decide⟩ ⟨by decide, by decide⟩
      ⟨⟨by decide, by decide⟩, by decide⟩ ⟨⟨by decide, by decide⟩, by decide⟩
      ⟨⟨by decide, by decide⟩, by decide⟩ (le_refl 1)⟩

end SD
